import Mathlib

/-!
Verification of the Meddata-Toolkit matching and quality-assessment engines.

The Python sources embedded here (shallowly) are:
  * `src/mdip/core/quality_control.py`  — class `QualityAssessment`
  * `src/mdip/core/matcher.py`          — class `DataMatcher`
  * `tools/advanced_merge_gui.py`       — `_normalize_join_key`

Python floats are modelled as exact rationals (`ℚ`), with a dedicated
`NumV` type adding the IEEE special values `nan`/`inf`/`-inf` where the
code distinguishes them.  pandas timestamps are modelled at day
resolution as integers (the code only ever uses `.dt.days`).
-/

namespace MDIP

/-- IEEE-style numeric cell value: `nan` models a missing value (pandas
stores nulls of numeric columns as NaN), `inf`/`ninf` the two infinities,
`fin q` a finite float modelled as an exact rational. -/
inductive NumV where
  | nan : NumV
  | inf : NumV
  | ninf : NumV
  | fin : ℚ → NumV
deriving DecidableEq, Repr

/-- `pd.notna` on a numeric cell: everything except NaN is non-null. -/
def NumV.notna : NumV → Bool
  | .nan => false
  | _ => true

/-- `np.isinf` on a numeric cell. -/
def NumV.isInf : NumV → Bool
  | .inf => true
  | .ninf => true
  | _ => false

/-- IEEE addition on modelled floats (exact in the finite case). -/
def NumV.add : NumV → NumV → NumV
  | .nan, _ => .nan
  | _, .nan => .nan
  | .inf, .ninf => .nan
  | .ninf, .inf => .nan
  | .inf, _ => .inf
  | _, .inf => .inf
  | .ninf, _ => .ninf
  | _, .ninf => .ninf
  | .fin a, .fin b => .fin (a + b)

/-- IEEE subtraction on modelled floats. -/
def NumV.sub : NumV → NumV → NumV
  | .nan, _ => .nan
  | _, .nan => .nan
  | .inf, .inf => .nan
  | .ninf, .ninf => .nan
  | .inf, _ => .inf
  | .ninf, _ => .ninf
  | .fin _, .inf => .ninf
  | .fin _, .ninf => .inf
  | .fin a, .fin b => .fin (a - b)

/-- IEEE multiplication of a modelled float by an exact rational scalar. -/
def NumV.mulQ : NumV → ℚ → NumV
  | .nan, _ => .nan
  | .inf, q => if q = 0 then .nan else if 0 < q then .inf else .ninf
  | .ninf, q => if q = 0 then .nan else if 0 < q then .ninf else .inf
  | .fin a, q => .fin (a * q)

/-- IEEE `<` on modelled floats: any comparison with NaN is false. -/
def NumV.lt : NumV → NumV → Bool
  | .nan, _ => false
  | _, .nan => false
  | .ninf, .ninf => false
  | .ninf, _ => true
  | _, .ninf => false
  | .inf, _ => false
  | .fin _, .inf => true
  | .fin a, .fin b => decide (a < b)

/-- Total `≤` used for sorting a numeric column (no NaN is present after
`dropna`; NaN is placed last as numpy's sort does). -/
def NumV.sortLe : NumV → NumV → Bool
  | .ninf, _ => true
  | _, .ninf => false
  | _, .nan => true
  | .nan, _ => false
  | _, .inf => true
  | .inf, _ => false
  | .fin a, .fin b => decide (a ≤ b)

/-- One cell of a row, tagged with its column's dtype.  Object (string)
and datetime nulls are `none`; numeric nulls are `NumV.nan`. -/
inductive CellVal where
  | num : NumV → CellVal
  | obj : Option String → CellVal
  | date : Option ℤ → CellVal
deriving DecidableEq, Repr

/-- The data of one column, by dtype: `float64`, `object`, `datetime64`. -/
inductive ColData where
  | numeric : List NumV → ColData
  | object : List (Option String) → ColData
  | datetime : List (Option ℤ) → ColData
deriving DecidableEq, Repr

/-- A named pandas column. -/
structure Column where
  name : String
  data : ColData
deriving DecidableEq, Repr

/-- Number of values stored in a column. -/
def ColData.len : ColData → ℕ
  | .numeric l => l.length
  | .object l => l.length
  | .datetime l => l.length

/-- Count of non-null values (`series.notna().sum()`). -/
def ColData.notnaCount : ColData → ℕ
  | .numeric l => l.countP (·.notna)
  | .object l => l.countP (·.isSome)
  | .datetime l => l.countP (·.isSome)

/-- Cell at row index `i` (callers guarantee `i` is in range; the
defaults are never reached on well-formed frames). -/
def ColData.cell : ColData → ℕ → CellVal
  | .numeric l, i => .num (l.getD i .nan)
  | .object l, i => .obj (l.getD i none)
  | .datetime l, i => .date (l.getD i none)

/-- A pandas DataFrame: an explicit row count plus ordered named columns.
Well-formedness (`DataFrame.WF`) says every column has `nrow` values. -/
structure DataFrame where
  nrow : ℕ
  cols : List Column
deriving DecidableEq, Repr

/-- Every column stores exactly `nrow` values. -/
def DataFrame.WF (df : DataFrame) : Prop :=
  ∀ c ∈ df.cols, c.data.len = df.nrow

instance (df : DataFrame) : Decidable df.WF := by
  unfold DataFrame.WF; infer_instance

/-- `len(df.columns)`. -/
def DataFrame.ncol (df : DataFrame) : ℕ := df.cols.length

/-- `field in df.columns`. -/
def DataFrame.hasCol (df : DataFrame) (f : String) : Bool :=
  df.cols.any (·.name = f)

/-- `df[field]` (first column of that name, as pandas indexing does for
unique column labels). -/
def DataFrame.getCol (df : DataFrame) (f : String) : Option Column :=
  df.cols.find? (·.name = f)

/-- A row, as the ordered association of column name to cell value
(`row.to_dict()` of `iterrows`). -/
def Row : Type := List (String × CellVal)

instance : DecidableEq Row := by unfold Row; infer_instance

/-- Row at index `i`: one tagged cell per column, in column order. -/
def DataFrame.row (df : DataFrame) (i : ℕ) : Row :=
  df.cols.map (fun c => (c.name, c.data.cell i))

/-- All rows of the frame, in order. -/
def DataFrame.rows (df : DataFrame) : List Row :=
  (List.range df.nrow).map df.row

/-- `np.mean` over an exact-rational list (`sum / len`; division by zero
yields `0`, matching the guarded uses in the source). -/
def meanQ (l : List ℚ) : ℚ := l.sum / l.length

/-- `series.duplicated(keep='first')` summed: counts every element equal
to an earlier element of the list (pandas treats nulls as equal here,
as does our structural equality). -/
def pdDuplicatedCount {α : Type} [DecidableEq α] : List α → List α → ℕ
  | _, [] => 0
  | seen, a :: rest =>
      (if a ∈ seen then 1 else 0) + pdDuplicatedCount (a :: seen) rest

/-- Result of `QualityAssessment.assess_uniqueness` (the sub-metrics the
specification speaks about). -/
structure UniquenessR where
  duplicate_rows : ℕ
  duplicate_rate : ℚ
  uniqueness_score : ℚ
deriving Repr, DecidableEq

/-- `QualityAssessment.assess_uniqueness`: duplicate detection via
`df.duplicated().sum()` and `uniqueness_score = 1 - duplicate_rate`.
(The per-field and key-field sub-reports are not needed by any claim
and are omitted.) -/
def assessUniqueness (df : DataFrame) : UniquenessR :=
  if df.nrow = 0 then ⟨0, 0, 0⟩
  else
    let dup := pdDuplicatedCount [] df.rows
    let rate : ℚ := (dup : ℚ) / (df.nrow : ℚ)
    ⟨dup, rate, 1 - rate⟩

/-- Whitespace class used by the normalizers: Python's `str.strip` /
regex `\s` restricted to the code points the toolkit meets (ASCII
whitespace plus NBSP, NEL and the full-width space `　`). -/
def isWsC (c : Char) : Bool :=
  c = ' ' || c = '\t' || c = '\n' || c = '\r' || c = '\x0b' || c = '\x0c' ||
  c = '\u0085' || c = ' ' || c = '　'

/-- Remove trailing whitespace characters. -/
def dropTrailingWs : List Char → List Char
  | [] => []
  | c :: t =>
      let r := dropTrailingWs t
      if r = [] && isWsC c then [] else c :: r

/-- Python `str.strip()` on a character list. -/
def stripChars (l : List Char) : List Char :=
  dropTrailingWs (l.dropWhile isWsC)

/-- Python `str.strip()`. -/
def pyStrip (s : String) : String := String.mk (stripChars s.toList)

/-- Result of `QualityAssessment.assess_completeness` (the overall cell
completeness; the per-field / critical / row-level sub-reports are not
needed by any claim and are omitted). -/
structure CompletenessR where
  overall_completeness : ℚ
deriving Repr, DecidableEq

/-- `QualityAssessment.assess_completeness`: non-null cells over total
cells, `0` for an empty frame.  The `critical`/`important` field hints
only feed the omitted sub-reports and cannot change the overall rate. -/
def assessCompleteness (df : DataFrame)
    (_critical _important : Option (List String)) : CompletenessR :=
  if df.nrow = 0 then ⟨0⟩
  else
    let totalCells : ℕ := df.nrow * df.ncol
    let nonNullCells : ℕ := (df.cols.map (·.data.notnaCount)).sum
    ⟨if totalCells > 0 then (nonNullCells : ℚ) / (totalCells : ℚ) else 0⟩

/-- The regex `^\d+\.?\d*$` of `assess_consistency`: one or more digits,
an optional dot, then optional digits (ASCII digits, as the data holds). -/
def matchesNumPattern (s : String) : Bool :=
  let cs := s.toList
  let ds := cs.takeWhile (·.isDigit)
  let rest := cs.dropWhile (·.isDigit)
  !ds.isEmpty &&
    (rest.isEmpty || (rest.head? = some '.' && (rest.drop 1).all (·.isDigit)))

/-- Result of `QualityAssessment.assess_consistency`. -/
structure ConsistencyR where
  data_type_consistency : List (String × ℚ)
  format_consistency : List (String × ℚ)
  overall_consistency_score : ℚ
deriving Repr, DecidableEq

/-- `QualityAssessment.assess_consistency`: per object column the share
of non-null values matching the numeric-text pattern; per datetime
column a constant placeholder `1.0`; overall the mean of all computed
scores (`0` when none). -/
def assessConsistency (df : DataFrame) : ConsistencyR :=
  let dt := df.cols.filterMap (fun c =>
    match c.data with
    | .object l =>
        let nn := l.filterMap id
        if nn.isEmpty then none
        else some (c.name, (nn.countP matchesNumPattern : ℚ) / (nn.length : ℚ))
    | _ => none)
  let fc := df.cols.filterMap (fun c =>
    match c.data with
    | .datetime l =>
        if (l.filterMap id).isEmpty then none else some (c.name, (1 : ℚ))
    | _ => none)
  let allScores := dt.map (·.2) ++ fc.map (·.2)
  ⟨dt, fc, if allScores.isEmpty then 0 else meanQ allScores⟩

/-- Insert into a sorted list (ascending by `NumV.sortLe`). -/
def insertNum (x : NumV) : List NumV → List NumV
  | [] => [x]
  | y :: t => if x.sortLe y then x :: y :: t else y :: insertNum x t

/-- Ascending sort of a numeric column. -/
def sortNum (l : List NumV) : List NumV := l.foldr insertNum []

/-- `Series.quantile(q)` with the default linear interpolation:
`a[⌊h⌋] + (a[⌊h⌋+1] - a[⌊h⌋])·(h - ⌊h⌋)` at `h = q·(n-1)` over the
ascending sort (`nan` for an empty series, which the source never
queries). -/
def quantileNum (l : List NumV) (q : ℚ) : NumV :=
  let s := sortNum l
  let n := s.length
  if n = 0 then .nan
  else
    let h : ℚ := q * ((n : ℚ) - 1)
    let i : ℕ := h.floor.toNat
    let frac : ℚ := h - (h.floor : ℚ)
    let lo := s.getD i .nan
    let hi := s.getD (min (i + 1) (n - 1)) .nan
    lo.add ((hi.sub lo).mulQ frac)

/-- Per-field result of `QualityAssessment.assess_accuracy`. -/
structure FieldAccuracy where
  invalid_count : ℕ
  total_count : ℕ
  accuracy_rate : ℚ
  issues : List String
deriving Repr, DecidableEq

/-- The per-column body of `assess_accuracy`.  Numeric columns: infinite
values are counted invalid, and when more than 10 non-null values exist
extreme outliers outside `[Q1 - 3·IQR, Q3 + 3·IQR]` are reported as an
issue (the source appends them to `issues` without touching
`invalid_count`).  Object columns: whitespace issues are reported, and
empty-after-strip strings counted invalid.  Other dtypes only count. -/
def assessAccuracyField (c : Column) : FieldAccuracy :=
  match c.data with
  | .numeric l =>
      let nn := l.filter (·.notna)
      let total := nn.length
      let infC := nn.countP (·.isInf)
      let infIssues :=
        if infC > 0 then ["Infinite values: " ++ toString infC] else []
      let outlierIssues :=
        if total > 10 then
          let q1 := quantileNum nn (1 / 4)
          let q3 := quantileNum nn (3 / 4)
          let iqr := q3.sub q1
          let lower := q1.sub (iqr.mulQ 3)
          let upper := q3.add (iqr.mulQ 3)
          let outl := nn.countP (fun v => v.lt lower || upper.lt v)
          if outl > 0 then ["Extreme outliers: " ++ toString outl] else []
        else []
      let rate : ℚ := if total > 0 then 1 - (infC : ℚ) / (total : ℚ) else 1
      ⟨infC, total, rate, infIssues ++ outlierIssues⟩
  | .object l =>
      let nn := l.filterMap id
      let total := nn.length
      let wsC := nn.countP (fun s => decide (s ≠ pyStrip s))
      let emptyC := nn.countP (fun s => pyStrip s = "")
      let wsIssues :=
        if wsC > 0 then ["Whitespace issues: " ++ toString wsC] else []
      let emptyIssues :=
        if emptyC > 0 then ["Empty strings: " ++ toString emptyC] else []
      let rate : ℚ := if total > 0 then 1 - (emptyC : ℚ) / (total : ℚ) else 1
      ⟨emptyC, total, rate, wsIssues ++ emptyIssues⟩
  | .datetime l =>
      ⟨0, (l.filterMap id).length, 1, []⟩

/-- Result of `QualityAssessment.assess_accuracy`. -/
structure AccuracyR where
  field_accuracy : List (String × FieldAccuracy)
  overall_accuracy_score : ℚ
  invalid_value_count : ℕ
  total_value_count : ℕ
deriving Repr, DecidableEq

/-- `QualityAssessment.assess_accuracy`: per-column checks, then
`overall = 1 - invalid/total` over all non-null values (`0` when the
frame holds no values at all). -/
def assessAccuracy (df : DataFrame) : AccuracyR :=
  let fields := df.cols.map (fun c => (c.name, assessAccuracyField c))
  let totalV : ℕ := (fields.map (·.2.total_count)).sum
  let invalidV : ℕ := (fields.map (·.2.invalid_count)).sum
  ⟨fields,
   if totalV > 0 then 1 - (invalidV : ℚ) / (totalV : ℚ) else 0,
   invalidV, totalV⟩

/-- `pat` occurs at the start of `text`. -/
def startsWithL : List Char → List Char → Bool
  | [], _ => true
  | _ :: _, [] => false
  | a :: ps, b :: ts => a = b && startsWithL ps ts

/-- `pat` occurs somewhere in `text` (Python's `sub in s`). -/
def containsL : List Char → List Char → Bool
  | [], pat => startsWithL pat []
  | text@(_ :: t), pat => startsWithL pat text || containsL t pat

/-- `sub in s.lower()`. -/
def lowerContains (s sub : String) : Bool :=
  containsL (s.toList.map Char.toLower) sub.toList

/-- Auto-detection of date fields in `assess_timeliness`: datetime
columns, else columns whose lower-cased name contains `date` or `time`. -/
def autoDetectDateFields (df : DataFrame) : List String :=
  df.cols.filterMap (fun c =>
    match c.data with
    | .datetime _ => some c.name
    | _ =>
        if lowerContains c.name "date" || lowerContains c.name "time" then
          some c.name
        else none)

/-- `pd.to_datetime(df[field], errors='coerce').dropna()`, in days.
Modelled: on non-datetime columns the coercion is modelled as all-NaT
(date parsing of strings/numbers is outside the model); no claim
depends on it. -/
def toDatetimeVals (c : Column) : List ℤ :=
  match c.data with
  | .datetime l => l.filterMap id
  | _ => []

/-- Maximum of a list of integers (callers guard non-emptiness). -/
def listMaxZ : List ℤ → ℤ
  | [] => 0
  | a :: t => t.foldl max a

/-- Minimum of a list of integers (callers guard non-emptiness). -/
def listMinZ : List ℤ → ℤ
  | [] => 0
  | a :: t => t.foldl min a

/-- Per-field analysis of `assess_timeliness`. -/
structure FieldTimeliness where
  min_date : Option ℤ
  max_date : Option ℤ
  avg_age_days : Option ℚ
  records_within_year : ℕ
  records_within_month : ℕ
  timeliness_score : ℚ
deriving Repr, DecidableEq

/-- The per-field body of `assess_timeliness` relative to the reference
day `now`; the second component is the score appended to the overall
list (only when the maximal age is positive). -/
def assessTimelinessField (now : ℤ) (c : Column) : FieldTimeliness × Option ℚ :=
  let dates := toDatetimeVals c
  if dates.isEmpty then (⟨none, none, none, 0, 0, 0⟩, none)
  else
    let ages : List ℤ := dates.map (fun d => now - d)
    let avgAge := meanQ (ages.map (fun (a : ℤ) => (a : ℚ)))
    let withinYear := dates.countP (fun d => decide (now - 365 ≤ d))
    let withinMonth := dates.countP (fun d => decide (now - 30 ≤ d))
    let maxAge := listMaxZ ages
    if 0 < maxAge then
      let score := 1 - meanQ (ages.map (fun (a : ℤ) => (a : ℚ) / (maxAge : ℚ)))
      (⟨some (listMinZ dates), some (listMaxZ dates), some avgAge,
        withinYear, withinMonth, score⟩, some score)
    else
      (⟨some (listMinZ dates), some (listMaxZ dates), some avgAge,
        withinYear, withinMonth, 0⟩, none)

/-- Result of `QualityAssessment.assess_timeliness`. -/
structure TimelinessR where
  date_field_analysis : List (String × FieldTimeliness)
  timeliness_score : ℚ
deriving Repr, DecidableEq

/-- The date-field list `assess_timeliness` works on: the supplied list
when non-empty (Python's `if not date_fields:` treats `None` and `[]`
alike), else the auto-detected one. -/
def tlFields (df : DataFrame) (dateFields : Option (List String)) :
    List String :=
  let fs0 := dateFields.getD []
  if fs0.isEmpty then autoDetectDateFields df else fs0

/-- The per-field loop of `assess_timeliness` (fields missing from the
frame are skipped by the `continue`). -/
def tlPerField (df : DataFrame) (dateFields : Option (List String))
    (now : ℤ) : List (String × (FieldTimeliness × Option ℚ)) :=
  (tlFields df dateFields).filterMap (fun f =>
    (df.getCol f).map (fun c => (f, assessTimelinessField now c)))

/-- `QualityAssessment.assess_timeliness`: the overall score is the
mean of the per-field scores that got appended (`0` when none). -/
def assessTimeliness (df : DataFrame) (dateFields : Option (List String))
    (now : ℤ) : TimelinessR :=
  let perField := tlPerField df dateFields now
  let scores := perField.filterMap (·.2.2)
  ⟨perField.map (fun p => (p.1, p.2.1)),
   if scores.isEmpty then 0 else meanQ scores⟩

/-- The full `QualityMetrics` container produced by one assessment. -/
structure QualityMetricsR where
  completeness : CompletenessR
  consistency : ConsistencyR
  uniqueness : UniquenessR
  accuracy : AccuracyR
  timeliness : TimelinessR
  overall_score : ℚ
deriving Repr, DecidableEq

/-- The metric computation of `generate_overall_assessment`: the five
assessors, then the weighted overall score
`0.25·completeness + 0.20·consistency + 0.20·uniqueness +
0.25·accuracy + 0.10·timeliness`. -/
def computeMetrics (df : DataFrame)
    (critical important _keys dates : Option (List String)) (now : ℤ) :
    QualityMetricsR :=
  let comp := assessCompleteness df critical important
  let cons := assessConsistency df
  let uniq := assessUniqueness df
  let acc := assessAccuracy df
  let tim := assessTimeliness df dates now
  ⟨comp, cons, uniq, acc, tim,
   comp.overall_completeness * 0.25 + cons.overall_consistency_score * 0.20 +
   uniq.uniqueness_score * 0.20 + acc.overall_accuracy_score * 0.25 +
   tim.timeliness_score * 0.10⟩

/-- One entry of `assessment_history` (timestamp modelled by the
reference day). -/
structure HistoryEntry where
  timestamp : ℤ
  dataframe_shape : ℕ × ℕ
  quality_metrics : QualityMetricsR
  overall_score : ℚ
deriving Repr, DecidableEq

/-- The mutable state of a `QualityAssessment` instance: just the
in-memory history list. -/
structure QualityAssessmentState where
  assessment_history : List HistoryEntry
deriving Repr, DecidableEq

/-- The history entry appended by one completed assessment. -/
def mkHistoryEntry (df : DataFrame)
    (critical important keys dates : Option (List String)) (now : ℤ) :
    HistoryEntry :=
  let m := computeMetrics df critical important keys dates now
  ⟨now, (df.nrow, df.ncol), m, m.overall_score⟩

/-- `QualityAssessment.generate_overall_assessment`: computes the
metrics and appends exactly one entry to the instance's history. -/
def generateOverallAssessment (qa : QualityAssessmentState) (df : DataFrame)
    (critical important keys dates : Option (List String)) (now : ℤ) :
    QualityMetricsR × QualityAssessmentState :=
  (computeMetrics df critical important keys dates now,
   ⟨qa.assessment_history ++ [mkHistoryEntry df critical important keys dates now]⟩)

/-- The public operations of a `QualityAssessment` instance. -/
inductive QAOp where
  | assessComp (df : DataFrame) (c i : Option (List String))
  | assessCons (df : DataFrame)
  | assessUniq (df : DataFrame) (k : Option (List String))
  | assessAcc (df : DataFrame)
  | assessTim (df : DataFrame) (d : Option (List String)) (now : ℤ)
  | generate (df : DataFrame) (c i k d : Option (List String)) (now : ℤ)
  | report (m : QualityMetricsR)

/-- Effect of one operation on the instance state: the five dimension
assessors and the report renderer are pure (they never touch
`assessment_history`); only `generate_overall_assessment` appends. -/
def QAOp.step : QAOp → QualityAssessmentState → QualityAssessmentState
  | .generate df c i k d now, qa => (generateOverallAssessment qa df c i k d now).2
  | _, qa => qa

/-- Whether an operation is a completed overall assessment. -/
def QAOp.isGenerate : QAOp → Bool
  | .generate _ _ _ _ _ _ => true
  | _ => false

/-- Run a sequence of operations on an instance. -/
def runQAOps (ops : List QAOp) (qa : QualityAssessmentState) :
    QualityAssessmentState :=
  ops.foldl (fun s op => op.step s) qa

/-- First step of `_normalize_join_key`: replace the full-width space
`　` (U+3000) by a plain space (`str.replace('　', ' ')`). -/
def repU3000 (l : List Char) : List Char :=
  l.map (fun c => if c = '　' then ' ' else c)

/-- The regex replacement `\s+` → `' '`: every maximal whitespace run
becomes one plain space. -/
def collapseWs : List Char → List Char
  | [] => []
  | [c] => if isWsC c then [' '] else [c]
  | c1 :: c2 :: t =>
      if isWsC c1 then
        if isWsC c2 then collapseWs (c2 :: t)
        else ' ' :: collapseWs (c2 :: t)
      else c1 :: collapseWs (c2 :: t)

/-- Whether the value ends in the two characters `.0` (the regex
`\.0$`). -/
def endsDot0 (l : List Char) : Bool :=
  match l.reverse with
  | '0' :: '.' :: _ => true
  | _ => false

/-- The regex replacement `\.0$` → `''`: strip one trailing `.0`. -/
def stripDot0 (l : List Char) : List Char :=
  if endsDot0 l then l.dropLast.dropLast else l

/-- Whether the value ends in a whitespace character. -/
def lastWs (l : List Char) : Bool :=
  match l.getLast? with
  | some c => isWsC c
  | none => false

/-- Well-collapsed whitespace: every whitespace character is a plain
space and no two adjacent characters are both whitespace (the shape
`collapseWs` guarantees). -/
def wsOk : List Char → Bool
  | [] => true
  | [c] => !isWsC c || c = ' '
  | c1 :: c2 :: t => (!isWsC c1 || c1 = ' ') && !(isWsC c1 && isWsC c2) && wsOk (c2 :: t)

/-- `_normalize_join_key` on one value (from
`tools/advanced_merge_gui.py`): full-width-space replacement, strip,
whitespace-run collapse, then one trailing-`.0` strip, in that order. -/
def normKeyChars (l : List Char) : List Char :=
  stripDot0 (collapseWs (stripChars (repU3000 l)))

/-- `_normalize_join_key` on one string value. -/
def normalizeJoinKeyStr (s : String) : String :=
  String.mk (normKeyChars s.toList)

/-- `_normalize_join_key` on a column (`astype('string')` keeps nulls
as `<NA>` and the `.str` pipeline skips them, hence `Option.map`). -/
def normalizeJoinKeyCol (col : List (Option String)) : List (Option String) :=
  col.map (Option.map normalizeJoinKeyStr)

/-- The fixed identifier priority list of `_detect_best_strategy`. -/
def commonIdFields : List String := ["subjid", "patientid", "patient_id", "id"]

/-- `df[field].notna().mean()` — non-null fraction of a column.  On an
empty column pandas yields NaN, modelled as `0`: both fail the `> 0.8`
gate identically. -/
def notnaFrac (df : DataFrame) (f : String) : ℚ :=
  match df.getCol f with
  | some c => (c.data.notnaCount : ℚ) / (c.data.len : ℚ)
  | none => 0

/-- `min(df[field].notna().mean() for df in data.values())` over a
non-empty collection. -/
def minFracOver (data : List DataFrame) (f : String) : ℚ :=
  match data with
  | [] => 0
  | d :: ds => ds.foldl (fun m df => min m (notnaFrac df f)) (notnaFrac d f)

/-- The loop of `_detect_best_strategy` over the priority list;
`none` models the `ValueError` that `min()` raises on an empty
collection (only reachable when no dataset was supplied). -/
def detectStrategyGo (data : List DataFrame) : List String → Option String
  | [] => some "composite"
  | f :: rest =>
      if data.all (fun df => df.hasCol f) then
        match data with
        | [] => none
        | _ :: _ =>
            if (0.8 : ℚ) < minFracOver data f then some "exact"
            else detectStrategyGo data rest
      else detectStrategyGo data rest

/-- `DataMatcher._detect_best_strategy`. -/
def detectBestStrategy (data : List DataFrame) : Option String :=
  detectStrategyGo data commonIdFields

/-- Indices of the occurrences of `c` in `b`, ascending (`b2j`). -/
def idxListOf (b : List Char) (c : Char) : List ℕ :=
  b.enum.filterMap (fun p => if p.2 = c then some p.1 else none)

/-- Best-match triple carried by `find_longest_match`. -/
structure FLMState where
  besti : ℕ
  bestj : ℕ
  bestsize : ℕ
deriving Repr, DecidableEq

/-- `difflib.SequenceMatcher.find_longest_match` on `a[alo:ahi]` and
`b[blo:bhi]` (no junk, which difflib only activates for inputs of 200+
characters): the longest matching block, earliest in `a` then in `b`
on ties, found by the `j2len` dynamic program. -/
def findLongestMatch (a b : List Char) (alo ahi blo bhi : ℕ) : FLMState :=
  let res := (List.range' alo (ahi - alo)).foldl
    (fun (acc : (ℕ → ℕ) × FLMState) i =>
      let ch := a.getD i ' '
      let js := (idxListOf b ch).filter (fun j => blo ≤ j && j < bhi)
      js.foldl
        (fun (acc2 : (ℕ → ℕ) × FLMState) j =>
          let k := (if j = 0 then 0 else acc.1 (j - 1)) + 1
          let nj : ℕ → ℕ := fun x => if x = j then k else acc2.1 x
          let b2 :=
            if k > acc2.2.bestsize then ⟨i + 1 - k, j + 1 - k, k⟩ else acc2.2
          (nj, b2))
        ((fun _ => 0), acc.2))
    ((fun _ => 0), ⟨alo, blo, 0⟩)
  res.2

/-- Total size of the matching blocks of
`SequenceMatcher.get_matching_blocks` (the `M` of `ratio`): recursive
split around each longest match.  Fuel bounds the recursion depth; the
top-level call supplies more than enough. -/
def matchingBlocksSize (a b : List Char) :
    ℕ → ℕ → ℕ → ℕ → ℕ → ℕ
  | 0, _, _, _, _ => 0
  | fuel + 1, alo, ahi, blo, bhi =>
      let m := findLongestMatch a b alo ahi blo bhi
      if m.bestsize = 0 then 0
      else
        matchingBlocksSize a b fuel alo m.besti blo m.bestj + m.bestsize +
        matchingBlocksSize a b fuel (m.besti + m.bestsize) ahi
          (m.bestj + m.bestsize) bhi

/-- Python 3 `round` on an exact rational: round half to even. -/
def pyRound (q : ℚ) : ℤ :=
  let n := Int.floor q
  let r := q - (n : ℚ)
  if r < 1 / 2 then n
  else if 1 / 2 < r then n + 1
  else if Even n then n else n + 1

/-- `fuzz.ratio(s1, s2)` (difflib backend): `int(round(100 · 2M/T))`
with `T` the total length, `100` when both strings are empty. -/
def fuzzRatioN (s1 s2 : String) : ℤ :=
  let a := s1.toList
  let b := s2.toList
  let t := a.length + b.length
  if t = 0 then 100
  else
    let m := matchingBlocksSize a b (t + 1) 0 a.length 0 b.length
    pyRound (100 * (2 * m : ℚ) / (t : ℚ))

/-- `fuzz.ratio(...) / 100` as used by `find_fuzzy_matches`. -/
def simQ (s1 s2 : String) : ℚ := (fuzzRatioN s1 s2 : ℚ) / 100

/-- `str(x)` on an object cell after `astype(str)`: pandas object nulls
are `NaN`, rendered `"nan"`. -/
def optionStr (v : Option String) : String := v.getD "nan"

/-- Modelled `str()` rendering of a numeric cell (the Python float
`repr`; no claim depends on the digits chosen for finite values). -/
def numReprStr : NumV → String
  | .nan => "nan"
  | .inf => "inf"
  | .ninf => "-inf"
  | .fin q => toString q

/-- Modelled `str()` rendering of a datetime cell. -/
def dateReprStr : Option ℤ → String
  | none => "NaT"
  | some d => "day " ++ toString d

/-- `DataMatcher.prepare_matching_fields`: copy, and strip the values
of every requested object column (`astype(str).str.strip()`); empty
frames are returned unchanged. -/
def prepareMatchingFields (df : DataFrame) (fields : List String) : DataFrame :=
  if df.nrow = 0 || df.cols.isEmpty then df
  else
    ⟨df.nrow, df.cols.map (fun c =>
      if c.name ∈ fields then
        match c.data with
        | .object l => ⟨c.name, .object (l.map (fun v => some (pyStrip (optionStr v))))⟩
        | _ => c
      else c)⟩

/-- Fields present in both frames (`available_fields`). -/
def availableFields (df1 df2 : DataFrame) (fields : List String) : List String :=
  fields.filter (fun f => df1.hasCol f && df2.hasCol f)

/-- Cell of a row under a column name. -/
def rowCell (r : Row) (f : String) : Option CellVal :=
  (r.find? (·.1 = f)).map (·.2)

/-- `str(row[field])` in the fuzzy scorer (the `none` default is
unreachable: fields are drawn from `available_fields`). -/
def cellStrAt (r : Row) (f : String) : String :=
  match rowCell r f with
  | some (.obj v) => optionStr v
  | some (.num v) => numReprStr v
  | some (.date v) => dateReprStr v
  | none => "nan"

/-- `DataMatcher.find_exact_matches`: empty result when no match field
is shared, else the inner equality join of the prepared frames. -/
def findExactMatches (df1 df2 : DataFrame) (fields : List String) :
    List (Row × Row) :=
  let av := availableFields df1 df2 fields
  if av.isEmpty then []
  else
    let left := prepareMatchingFields df1 av
    let right := prepareMatchingFields df2 av
    left.rows.flatMap (fun lr =>
      right.rows.filterMap (fun rr =>
        if av.all (fun f => rowCell lr f = rowCell rr f) then some (lr, rr)
        else none))

/-- The average per-field similarity of one row pair
(`sum(scores) / len(scores)`). -/
def avgSim (fields : List String) (lr rr : Row) : ℚ :=
  let scores := fields.map (fun f => simQ (cellStrAt lr f) (cellStrAt rr f))
  scores.sum / (scores.length : ℚ)

/-- The inner loop of `find_fuzzy_matches`: starting from
`best_score = -1`, `best_row = None`, keep any strictly better row. -/
def fuzzyBest (fields : List String) (lr : Row) (rrows : List Row) :
    ℚ × Option Row :=
  rrows.foldl
    (fun acc rr => if acc.1 < avgSim fields lr rr then (avgSim fields lr rr, some rr) else acc)
    (-1, none)

/-- One accepted fuzzy pairing: the merged row of `find_fuzzy_matches`
(left values, prefixed right values, and the similarity score). -/
structure MatchedPair where
  left : Row
  right : Row
  similarity_score : ℚ
deriving DecidableEq

/-- Body of the outer loop of `find_fuzzy_matches` for one left row:
emit the best right row when one exists and its score reaches the
threshold. -/
def fuzzyRowMatch (fields : List String) (thr : ℚ) (rrows : List Row)
    (lr : Row) : Option MatchedPair :=
  let best := fuzzyBest fields lr rrows
  match best.2 with
  | some rr => if thr ≤ best.1 then some ⟨lr, rr, best.1⟩ else none
  | none => none

/-- `DataMatcher.find_fuzzy_matches`: empty result when no match field
is shared (before any validation); `ValueError` when the threshold is
outside `[0,1]`; else the per-left-row best pairings at the
threshold. -/
def findFuzzyMatches (df1 df2 : DataFrame) (fields : List String) (thr : ℚ) :
    Except String (List MatchedPair) :=
  let av := availableFields df1 df2 fields
  if av.isEmpty then .ok []
  else if ¬(0 ≤ thr ∧ thr ≤ 1) then
    .error "similarity_threshold must be between 0 and 1"
  else
    let left := prepareMatchingFields df1 av
    let right := prepareMatchingFields df2 av
    .ok (left.rows.filterMap (fuzzyRowMatch av thr right.rows))

/-! ### Claim-side definitions and concrete frames used by the claims -/

/-- The invalid-value count as the specification words it (claim C5):
for numeric columns the non-finite values plus the extreme outliers
outside `[Q1 - 3·IQR, Q3 + 3·IQR]` (detected only when more than 10
non-null values exist); for string columns the whitespace-issue values plus the
empty-after-trim values.  This is the *spec's* formula, to be compared
with `assessAccuracyField`. -/
def specAccuracyInvalidCount (c : Column) : ℕ :=
  match c.data with
  | .numeric l =>
      let nn := l.filter (·.notna)
      let infC := nn.countP (·.isInf)
      let outl :=
        if nn.length > 10 then
          let q1 := quantileNum nn (1 / 4)
          let q3 := quantileNum nn (3 / 4)
          let iqr := q3.sub q1
          nn.countP (fun v =>
            v.lt (q1.sub (iqr.mulQ 3)) || (q3.add (iqr.mulQ 3)).lt v)
        else 0
      infC + outl
  | .object l =>
      (l.filterMap id).countP (fun s => decide (s ≠ pyStrip s)) +
      (l.filterMap id).countP (fun s => pyStrip s = "")
  | .datetime _ => 0

/-- An object column holding one value with leading whitespace — a
"whitespace issue" in the sense of `assess_accuracy` (claim C5). -/
def wsCol : Column := ⟨"note", .object [some " x"]⟩

/-- Scenario D (claim C2): ten rows, one exact duplicate pair. -/
def scenarioD : DataFrame :=
  ⟨10, [⟨"v", .object [some "a", some "b", some "c", some "d", some "e",
                       some "f", some "g", some "h", some "i", some "a"]⟩]⟩

/-- Scenario E (claim C5): the five-value numeric column
`[10, 12, 11, 13, 999999]`. -/
def scenarioECol : Column :=
  ⟨"x", .numeric [.fin 10, .fin 12, .fin 11, .fin 13, .fin 999999]⟩

/-- A numeric column with twelve values and one extreme outlier, enough
(> 10 non-null values) to trigger the outlier check of
`assess_accuracy`. -/
def outlierCol : Column :=
  ⟨"x", .numeric [.fin 10, .fin 10, .fin 10, .fin 10, .fin 10, .fin 10,
                  .fin 10, .fin 10, .fin 10, .fin 10, .fin 10, .fin 999999]⟩

/-- Left frame of scenario C (claim C4). -/
def scenarioCLeft : DataFrame := ⟨1, [⟨"name", .object [some "John Doe"]⟩]⟩

/-- Right frame of scenario C (claim C4): the double-space variant. -/
def scenarioCRight : DataFrame := ⟨1, [⟨"name", .object [some "John  Doe"]⟩]⟩

/-- The single (prepared) row of `scenarioCLeft`. -/
def c4LRow : Row := [("name", CellVal.obj (some "John Doe"))]

/-- The single (prepared) row of `scenarioCRight`. -/
def c4RRow : Row := [("name", CellVal.obj (some "John  Doe"))]

/-- A one-column frame named `a` (claims C8/C10). -/
def dfOnlyA : DataFrame := ⟨1, [⟨"a", .object [some "x"]⟩]⟩

/-- A one-column frame named `b`, sharing no column with `dfOnlyA`. -/
def dfOnlyB : DataFrame := ⟨1, [⟨"b", .object [some "x"]⟩]⟩

/-- A frame whose only column is a datetime one with a far-future value
relative to reference day `0` (claim C1's counterexample): ages are
`[10, -1000]` days. -/
def dfFutureDate : DataFrame :=
  ⟨2, [⟨"visit", .datetime [some (-10), some 1000]⟩]⟩

/-- A frame with only past dates relative to reference day `0`
(claim C1's witness). -/
def dfPastDate : DataFrame :=
  ⟨2, [⟨"visit", .datetime [some (-10), some (-400)]⟩]⟩

/-- Two frames sharing a fully populated `subjid` column (claim C6's
witness). -/
def dfSubjA : DataFrame :=
  ⟨2, [⟨"subjid", .object [some "s1", some "s2"]⟩]⟩

/-- Companion frame of `dfSubjA`. -/
def dfSubjB : DataFrame :=
  ⟨2, [⟨"subjid", .object [some "s2", some "s3"]⟩,
       ⟨"age", .numeric [.fin 61, .nan]⟩]⟩

/-! ### Theorems -/

/-- The history after `generate_overall_assessment` is the old history
plus the fresh entry. -/
theorem generate_appends (qa : QualityAssessmentState) (df : DataFrame)
    (c i k d : Option (List String)) (now : ℤ) :
    (generateOverallAssessment qa df c i k d now).2.assessment_history =
      qa.assessment_history ++ [mkHistoryEntry df c i k d now] := rfl

/-- Any single operation leaves the existing history as a prefix and
appends one entry exactly when it is a completed assessment. -/
theorem step_history (op : QAOp) (qa : QualityAssessmentState) :
    ∃ s, (op.step qa).assessment_history = qa.assessment_history ++ s ∧
      s.length = (if op.isGenerate then 1 else 0) := by
  cases op
  case generate df c i k d now =>
    exact ⟨[mkHistoryEntry df c i k d now], rfl, rfl⟩
  all_goals exact ⟨[], by simp [QAOp.step], rfl⟩

/-- Running any operation sequence only appends to the history, one
entry per completed assessment. -/
theorem runQAOps_history (ops : List QAOp) (qa : QualityAssessmentState) :
    ∃ s, (runQAOps ops qa).assessment_history = qa.assessment_history ++ s ∧
      s.length = ops.countP QAOp.isGenerate := by
  induction ops generalizing qa with
  | nil => exact ⟨[], by simp [runQAOps]⟩
  | cons op rest ih =>
      obtain ⟨s₁, h₁, hl₁⟩ := step_history op qa
      obtain ⟨s₂, h₂, hl₂⟩ := ih (op.step qa)
      refine ⟨s₁ ++ s₂, ?_, ?_⟩
      · simp [runQAOps] at h₂ ⊢
        rw [h₂, h₁, List.append_assoc]
      · simp [List.countP_cons, hl₂, hl₁]
        cases hg : op.isGenerate <;> simp [hg] <;> omega

/-- C9: each completed `generate_overall_assessment` appends exactly one
entry (timestamp, shape, metrics) to the instance's
`assessment_history`, no operation of the class rewrites or removes an
earlier entry, and after running any operation sequence the history
length grew by exactly the number of completed assessments while the
old history stayed an unchanged prefix. -/
theorem claim_C9 :
    (∀ (qa : QualityAssessmentState) (df : DataFrame)
       (c i k d : Option (List String)) (now : ℤ),
       (generateOverallAssessment qa df c i k d now).2.assessment_history =
         qa.assessment_history ++ [mkHistoryEntry df c i k d now]) ∧
    (∀ (ops : List QAOp) (qa : QualityAssessmentState),
       (runQAOps ops qa).assessment_history.take
           qa.assessment_history.length = qa.assessment_history ∧
       (runQAOps ops qa).assessment_history.length =
         qa.assessment_history.length + ops.countP QAOp.isGenerate) := by
  refine ⟨fun qa df c i k d now => rfl, fun ops qa => ?_⟩
  obtain ⟨s, hs, hl⟩ := runQAOps_history ops qa
  rw [hs]
  constructor
  · exact List.take_left _ _
  · simp [hl]

/-- C10: when no match field is shared by the two frames, both matchers
return an empty result and no error — `find_fuzzy_matches` returns
before validating the threshold, so even an out-of-range threshold
yields an empty result. -/
theorem claim_C10 (df1 df2 : DataFrame) (fields : List String) (thr : ℚ)
    (h : ∀ f ∈ fields, ¬(df1.hasCol f ∧ df2.hasCol f)) :
    findExactMatches df1 df2 fields = [] ∧
    findFuzzyMatches df1 df2 fields thr = .ok [] := by
  have hav : availableFields df1 df2 fields = [] := by
    rw [availableFields, List.filter_eq_nil_iff]
    intro f hf
    simpa using h f hf
  constructor
  · rw [findExactMatches, hav]; simp
  · rw [findFuzzyMatches, hav]; simp

/-- C10 witness: two frames with disjoint columns and an out-of-range
threshold `2` still give empty results without an error. -/
theorem claim_C10_witness :
    findExactMatches dfOnlyA dfOnlyB ["a"] = [] ∧
    findFuzzyMatches dfOnlyA dfOnlyB ["a"] 2 = .ok [] :=
  claim_C10 dfOnlyA dfOnlyB ["a"] 2 (by decide)

/-- C8 counterexample: with an out-of-range threshold but no shared
match field, `find_fuzzy_matches` returns an empty result instead of
raising — refuting "raises an error whenever the threshold lies outside
[0,1]". -/
theorem claim_C8_counterexample :
    findFuzzyMatches dfOnlyA dfOnlyB ["a"] 2 = .ok [] ∧
    ∀ e, findFuzzyMatches dfOnlyA dfOnlyB ["a"] 2 ≠ .error e := by
  refine ⟨rfl, fun e h => ?_⟩
  rw [show findFuzzyMatches dfOnlyA dfOnlyB ["a"] 2 = .ok [] from rfl] at h
  exact Except.noConfusion h

/-- C8 (amended): `find_fuzzy_matches` raises exactly when the
threshold is outside `[0,1]` *and* at least one match field is shared
by the two frames; with no shared field it returns an empty result
before the validation. -/
theorem claim_C8 (df1 df2 : DataFrame) (fields : List String) (thr : ℚ) :
    (∃ e, findFuzzyMatches df1 df2 fields thr = .error e) ↔
      (availableFields df1 df2 fields ≠ [] ∧ (thr < 0 ∨ 1 < thr)) := by
  rw [findFuzzyMatches]
  by_cases hav : (availableFields df1 df2 fields).isEmpty
  · rw [if_pos hav]
    simp [List.isEmpty_iff.mp hav]
  · rw [if_neg hav]
    by_cases hthr : 0 ≤ thr ∧ thr ≤ 1
    · rw [if_neg (by simpa using hthr)]
      simp only [List.isEmpty_iff] at hav
      constructor
      · rintro ⟨e, he⟩; exact Except.noConfusion he
      · rintro ⟨-, h⟩
        rcases h with h | h
        · exact absurd hthr.1 (not_le.mpr h)
        · exact absurd hthr.2 (not_le.mpr h)
    · rw [if_pos (by simpa using hthr)]
      simp only [List.isEmpty_iff] at hav
      push_neg at hthr
      constructor
      · intro _
        refine ⟨hav, ?_⟩
        by_cases h0 : 0 ≤ thr
        · exact Or.inr (lt_of_not_le (fun h1 => absurd (hthr h0) (not_lt.mpr h1)))
        · exact Or.inl (lt_of_not_le h0)
      · intro _; exact ⟨_, rfl⟩

/-- Pandas' keep-first duplicate count plus the number of distinct
values not already seen equals the list length. -/
theorem pdDup_add_card {α : Type} [DecidableEq α] (l : List α) (seen : List α) :
    pdDuplicatedCount seen l + (l.toFinset \ seen.toFinset).card = l.length := by
  induction l generalizing seen with
  | nil => simp [pdDuplicatedCount]
  | cons a t ih =>
      rw [pdDuplicatedCount]
      have hIH := ih (a :: seen)
      rw [List.toFinset_cons] at hIH
      by_cases ha : a ∈ seen
      · have haF : a ∈ seen.toFinset := List.mem_toFinset.mpr ha
        have h1 : (a :: t).toFinset \ seen.toFinset =
            t.toFinset \ seen.toFinset := by
          rw [List.toFinset_cons, Finset.insert_sdiff_of_mem _ haF]
        have h2 : insert a seen.toFinset = seen.toFinset :=
          Finset.insert_eq_self.mpr haF
        rw [h2] at hIH
        rw [h1, if_pos ha]
        simp only [List.length_cons]
        omega
      · have haF : a ∉ seen.toFinset := fun h => ha (List.mem_toFinset.mp h)
        have h1 : (a :: t).toFinset \ seen.toFinset =
            insert a (t.toFinset \ seen.toFinset) := by
          rw [List.toFinset_cons, Finset.insert_sdiff_of_not_mem _ haF]
        have h2 : t.toFinset \ insert a seen.toFinset =
            (t.toFinset \ seen.toFinset).erase a := Finset.sdiff_insert _ _ _
        rw [h2] at hIH
        rw [h1, if_neg ha]
        simp only [List.length_cons]
        by_cases hat : a ∈ t.toFinset \ seen.toFinset
        · have hcard : ((t.toFinset \ seen.toFinset).erase a).card + 1 =
              (t.toFinset \ seen.toFinset).card := Finset.card_erase_add_one hat
          rw [Finset.insert_eq_self.mpr hat]
          omega
        · have herase : (t.toFinset \ seen.toFinset).erase a =
              t.toFinset \ seen.toFinset := Finset.erase_eq_of_not_mem hat
          rw [herase] at hIH
          rw [Finset.card_insert_of_not_mem hat]
          omega

/-- Keep-first duplicate marking counts everything but one
representative per distinct value. -/
theorem pdDup_eq_sub {α : Type} [DecidableEq α] (l : List α) :
    pdDuplicatedCount [] l = l.length - l.toFinset.card := by
  have h := pdDup_add_card l []
  simp only [List.toFinset_nil, Finset.sdiff_empty] at h
  omega

/-- C2 (amended): `assess_uniqueness` counts duplicated rows with
pandas' keep-first rule — every copy *after the first* of each repeated
row, i.e. row count minus distinct-row count — and
`duplicate_rate = duplicate_rows / row count`; hence the ten-row frame
with one exact duplicate pair yields `duplicate_rows = 1` and
`duplicate_rate = 0.1` (not 2 and 0.2). -/
theorem claim_C2 :
    (∀ df : DataFrame,
       (assessUniqueness df).duplicate_rows =
         df.rows.length - df.rows.toFinset.card ∧
       (assessUniqueness df).duplicate_rate =
         ((assessUniqueness df).duplicate_rows : ℚ) / (df.nrow : ℚ)) ∧
    (assessUniqueness scenarioD).duplicate_rows = 1 ∧
    (assessUniqueness scenarioD).duplicate_rate = 1 / 10 := by
  have hdup : ∀ df : DataFrame,
      (assessUniqueness df).duplicate_rows =
        df.rows.length - df.rows.toFinset.card := by
    intro df
    rw [assessUniqueness]
    by_cases h0 : df.nrow = 0
    · have hrows : df.rows = [] := by simp [DataFrame.rows, h0]
      rw [if_pos h0, hrows]
      simp
    · rw [if_neg h0]
      exact pdDup_eq_sub _
  have hrate : ∀ df : DataFrame,
      (assessUniqueness df).duplicate_rate =
        ((assessUniqueness df).duplicate_rows : ℚ) / (df.nrow : ℚ) := by
    intro df
    rw [assessUniqueness]
    by_cases h0 : df.nrow = 0
    · rw [if_pos h0]; simp [h0]
    · rw [if_neg h0]
  refine ⟨fun df => ⟨hdup df, hrate df⟩, ?_, ?_⟩
  · decide
  · have h1 : (assessUniqueness scenarioD).duplicate_rows = 1 := by decide
    rw [hrate scenarioD, h1]
    norm_num [scenarioD]

/-- C2 counterexample: scenario D as the claim states it is false — the
ten-row frame with one exact duplicate pair reports `duplicate_rows = 1`
(only the second copy is flagged by `df.duplicated()`), not 2 with rate
0.2. -/
theorem claim_C2_counterexample :
    ¬ ((assessUniqueness scenarioD).duplicate_rows = 2 ∧
       (assessUniqueness scenarioD).duplicate_rate = 2 / 10) := by
  rintro ⟨h, -⟩
  exact absurd h (by decide)

/-- Unfolding of the strategy loop when the candidate field exists in
every dataset. -/
theorem detectGo_cons_pos (d : DataFrame) (ds : List DataFrame) (f : String)
    (rest : List String) (h1 : (d :: ds).all (fun df => df.hasCol f) = true) :
    detectStrategyGo (d :: ds) (f :: rest) =
      if (0.8 : ℚ) < minFracOver (d :: ds) f then some "exact"
      else detectStrategyGo (d :: ds) rest := by
  rw [detectStrategyGo, if_pos h1]

/-- Unfolding of the strategy loop when the candidate field is missing
somewhere. -/
theorem detectGo_cons_neg (d : DataFrame) (ds : List DataFrame) (f : String)
    (rest : List String)
    (h1 : ¬ (d :: ds).all (fun df => df.hasCol f) = true) :
    detectStrategyGo (d :: ds) (f :: rest) = detectStrategyGo (d :: ds) rest := by
  rw [detectStrategyGo, if_neg h1]

/-- The strategy loop answers `exact` precisely when some candidate
field is present everywhere with minimum non-null fraction above 0.8. -/
theorem detectGo_exact_iff (d : DataFrame) (ds : List DataFrame)
    (fs : List String) :
    detectStrategyGo (d :: ds) fs = some "exact" ↔
      ∃ f ∈ fs, (∀ df ∈ d :: ds, df.hasCol f = true) ∧
        (0.8 : ℚ) < minFracOver (d :: ds) f := by
  induction fs with
  | nil => simp [detectStrategyGo]
  | cons f rest ih =>
      by_cases h1 : (d :: ds).all (fun df => df.hasCol f) = true
      · rw [detectGo_cons_pos d ds f rest h1]
        rw [List.all_eq_true] at h1
        by_cases h2 : (0.8 : ℚ) < minFracOver (d :: ds) f
        · rw [if_pos h2]
          simp only [true_iff]
          exact ⟨f, List.mem_cons_self f rest, h1, h2⟩
        · rw [if_neg h2, ih]
          constructor
          · rintro ⟨g, hg, hgall, hgfrac⟩
            exact ⟨g, List.mem_cons.mpr (Or.inr hg), hgall, hgfrac⟩
          · rintro ⟨g, hg, hgall, hgfrac⟩
            rcases List.mem_cons.mp hg with rfl | hg'
            · exact absurd hgfrac h2
            · exact ⟨g, hg', hgall, hgfrac⟩
      · rw [detectGo_cons_neg d ds f rest h1, ih]
        rw [List.all_eq_true] at h1
        constructor
        · rintro ⟨g, hg, hgall, hgfrac⟩
          exact ⟨g, List.mem_cons.mpr (Or.inr hg), hgall, hgfrac⟩
        · rintro ⟨g, hg, hgall, hgfrac⟩
          rcases List.mem_cons.mp hg with rfl | hg'
          · exact absurd hgall h1
          · exact ⟨g, hg', hgall, hgfrac⟩

/-- On a non-empty collection the strategy loop answers `exact` or
`composite`, never anything else. -/
theorem detectGo_cases (d : DataFrame) (ds : List DataFrame)
    (fs : List String) :
    detectStrategyGo (d :: ds) fs = some "exact" ∨
    detectStrategyGo (d :: ds) fs = some "composite" := by
  induction fs with
  | nil => right; rfl
  | cons f rest ih =>
      by_cases h1 : (d :: ds).all (fun df => df.hasCol f) = true
      · rw [detectGo_cons_pos d ds f rest h1]
        by_cases h2 : (0.8 : ℚ) < minFracOver (d :: ds) f
        · left; rw [if_pos h2]
        · rw [if_neg h2]; exact ih
      · rw [detectGo_cons_neg d ds f rest h1]; exact ih

/-- C6: for every non-empty dataset collection, `_detect_best_strategy`
returns `exact` iff some field of its fixed identifier priority list
exists in every dataset and the minimum per-dataset non-null fraction
of that field exceeds 0.8; otherwise it returns `composite`; it never
returns `fuzzy`. -/
theorem claim_C6 (data : List DataFrame) (h : data ≠ []) :
    (detectBestStrategy data = some "exact" ↔
      ∃ f ∈ commonIdFields, (∀ df ∈ data, df.hasCol f = true) ∧
        (0.8 : ℚ) < minFracOver data f) ∧
    (detectBestStrategy data = some "exact" ∨
     detectBestStrategy data = some "composite") ∧
    detectBestStrategy data ≠ some "fuzzy" := by
  obtain ⟨d, ds, rfl⟩ := List.exists_cons_of_ne_nil h
  refine ⟨detectGo_exact_iff d ds commonIdFields,
          detectGo_cases d ds commonIdFields, ?_⟩
  rcases detectGo_cases d ds commonIdFields with hc | hc <;>
    rw [detectBestStrategy] at * <;> rw [hc] <;> simp

/-- C6 witness: on two frames sharing a fully populated `subjid` column
the detector picks `exact` or `composite` (indeed `exact`), never
`fuzzy`. -/
theorem claim_C6_witness :
    detectBestStrategy [dfSubjA, dfSubjB] = some "exact" ∨
    detectBestStrategy [dfSubjA, dfSubjB] = some "composite" :=
  (claim_C6 [dfSubjA, dfSubjB] (by simp)).2.1

/-- C5 (amended): `assess_accuracy` counts as invalid only the
non-finite values of numeric columns and the empty-after-trim values of
string columns; extreme outliers (checked only beyond 10 non-null
values) and whitespace issues are reported in `issues` without entering
`invalid_count`; per-field `accuracy_rate = 1 - invalid/total` and the
overall score is `1 - total invalid / total values`; the five-value
scenario column `[10,12,11,13,999999]` is below the outlier-check
threshold, so its accuracy report is perfect and flags nothing. -/
theorem claim_C5 :
    (∀ (name : String) (l : List NumV),
       (assessAccuracyField ⟨name, .numeric l⟩).invalid_count =
         (l.filter (·.notna)).countP (·.isInf)) ∧
    (∀ (name : String) (l : List (Option String)),
       (assessAccuracyField ⟨name, .object l⟩).invalid_count =
         (l.filterMap id).countP (fun s => pyStrip s = "")) ∧
    (∀ (name : String) (l : List (Option ℤ)),
       (assessAccuracyField ⟨name, .datetime l⟩).invalid_count = 0) ∧
    (∀ c : Column, (assessAccuracyField c).accuracy_rate =
       if (assessAccuracyField c).total_count > 0 then
         1 - ((assessAccuracyField c).invalid_count : ℚ) /
             ((assessAccuracyField c).total_count : ℚ)
       else 1) ∧
    (∀ c : Column,
       (assessAccuracyField c).invalid_count ≤
         (assessAccuracyField c).total_count) ∧
    (∀ df : DataFrame,
       (assessAccuracy df).invalid_value_count =
         (df.cols.map (fun c => (assessAccuracyField c).invalid_count)).sum ∧
       (assessAccuracy df).overall_accuracy_score =
         if (assessAccuracy df).total_value_count > 0 then
           1 - ((assessAccuracy df).invalid_value_count : ℚ) /
               ((assessAccuracy df).total_value_count : ℚ)
         else 0) ∧
    (assessAccuracyField scenarioECol).accuracy_rate = 1 ∧
    (assessAccuracyField scenarioECol).issues = [] := by
  refine ⟨fun name l => rfl, fun name l => rfl, fun name l => rfl,
          fun c => ?_, fun c => ?_, fun df => ⟨?_, rfl⟩, ?_, rfl⟩
  · obtain ⟨name, data⟩ := c
    cases data
    · rfl
    · rfl
    · simp only [assessAccuracyField]
      split_ifs with h
      · norm_num
      · rfl
  · obtain ⟨name, data⟩ := c
    cases data
    · exact List.countP_le_length _
    · exact List.countP_le_length _
    · exact Nat.zero_le _
  · rw [assessAccuracy]
    simp only [List.map_map]
    rfl
  · simp [assessAccuracyField, scenarioECol, NumV.notna, NumV.isInf]

/-- C5 counterexample: a string column holding the single value `" x"`
has a whitespace issue; the claim's invalid-count formula gives 1, but
`assess_accuracy` reports `invalid_count = 0` (whitespace issues are
never counted invalid); and scenario E's five-value column produces a
report with `accuracy_rate = 1` and no issues at all — its outlier is
not reflected anywhere. -/
theorem claim_C5_counterexample :
    (assessAccuracyField wsCol).invalid_count ≠
      specAccuracyInvalidCount wsCol ∧
    (assessAccuracyField wsCol).invalid_count = 0 ∧
    specAccuracyInvalidCount wsCol = 1 ∧
    (assessAccuracyField scenarioECol).issues = [] ∧
    (assessAccuracyField scenarioECol).accuracy_rate = 1 := by
  refine ⟨by decide, by decide, by decide, rfl, ?_⟩
  simp [assessAccuracyField, scenarioECol, NumV.notna, NumV.isInf]

/-- `fuzz.ratio("John Doe", "John  Doe") = 94`: the matching blocks
cover 8 characters of 17, and `round(1600/17) = 94`. -/
theorem fuzz_jd : fuzzRatioN "John Doe" "John  Doe" = 94 := by
  rw [fuzzRatioN]
  norm_num
  have hm : matchingBlocksSize ['J','o','h','n',' ','D','o','e']
      ['J','o','h','n',' ',' ','D','o','e'] 18 0 8 0 9 = 8 := by decide
  rw [hm]
  have hfl : Int.floor ((100 * (2 * (8 : ℕ)) : ℚ) / 17) = 94 := by
    rw [Int.floor_eq_iff] <;> norm_num
  simp only [pyRound, hfl]
  norm_num

/-- The scorer's similarity for the scenario-C pair is 0.94, not 1. -/
theorem simQ_jd : simQ "John Doe" "John  Doe" = 47 / 50 := by
  rw [simQ, fuzz_jd]; norm_num

/-- One-field average similarity of the scenario-C rows. -/
theorem avg_jd : avgSim ["name"] c4LRow c4RRow = 47 / 50 := by
  rw [avgSim]
  simp [cellStrAt, rowCell, c4LRow, c4RRow, optionStr, simQ_jd]

/-- The best-row fold keeps the single right row with score 0.94. -/
theorem best_jd : fuzzyBest ["name"] c4LRow [c4RRow] = (47 / 50, some c4RRow) := by
  rw [fuzzyBest]
  simp only [List.foldl_cons, List.foldl_nil, avg_jd]
  rw [if_pos (by norm_num)]

/-- Full evaluation of `find_fuzzy_matches` on the scenario-C frames at
any valid threshold: the pair is emitted exactly when `thr ≤ 0.94`. -/
theorem pipe_jd (thr : ℚ) (h0 : 0 ≤ thr) (h1 : thr ≤ 1) :
    findFuzzyMatches scenarioCLeft scenarioCRight ["name"] thr =
      .ok (if thr ≤ 47 / 50 then [⟨c4LRow, c4RRow, 47 / 50⟩] else []) := by
  simp only [findFuzzyMatches]
  rw [show availableFields scenarioCLeft scenarioCRight ["name"] = ["name"] from rfl]
  rw [if_neg (by simp)]
  rw [if_neg (by simp [h0, h1])]
  rw [show (prepareMatchingFields scenarioCLeft ["name"]).rows = [c4LRow] from rfl]
  rw [show (prepareMatchingFields scenarioCRight ["name"]).rows = [c4RRow] from rfl]
  simp only [List.filterMap]
  simp only [fuzzyRowMatch, best_jd]
  split_ifs with h <;> simp

/-- C4 (amended): `prepare_matching_fields` only trims leading/trailing
whitespace — internal runs are not collapsed — so fuzzy-matching
"John Doe" against "John  Doe" yields similarity 0.94
(`fuzz.ratio = 94`), and the pairing is accepted exactly at thresholds
≤ 0.94, not at every threshold ≤ 1. -/
theorem claim_C4 (thr : ℚ) (h0 : 0 ≤ thr) (h1 : thr ≤ 1) :
    simQ "John Doe" "John  Doe" = 47 / 50 ∧
    findFuzzyMatches scenarioCLeft scenarioCRight ["name"] thr =
      .ok (if thr ≤ 47 / 50 then [⟨c4LRow, c4RRow, 47 / 50⟩] else []) :=
  ⟨simQ_jd, pipe_jd thr h0 h1⟩

/-- C4 witness: at threshold 0.9 the scenario-C pairing is accepted
with similarity 0.94. -/
theorem claim_C4_witness :
    findFuzzyMatches scenarioCLeft scenarioCRight ["name"] (9 / 10) =
      .ok [⟨c4LRow, c4RRow, 47 / 50⟩] := by
  rw [(claim_C4 (9 / 10) (by norm_num) (by norm_num)).2,
      if_pos (by norm_num)]

/-- C4 counterexample: the scenario-C similarity is not 1, and at
threshold 1 (which is ≤ 1.0) the pairing is rejected — refuting
"similarity exactly 1.0, accepted at every threshold ≤ 1.0". -/
theorem claim_C4_counterexample :
    simQ "John Doe" "John  Doe" ≠ 1 ∧
    findFuzzyMatches scenarioCLeft scenarioCRight ["name"] 1 = .ok [] := by
  constructor
  · rw [simQ_jd]; norm_num
  · rw [pipe_jd 1 (by norm_num) le_rfl, if_neg (by norm_num)]

/-- The strict-improvement fold of `find_fuzzy_matches` either keeps
its accumulator (when nothing beats it) or returns the value of the
first index attaining the maximum. -/
theorem bestFold_spec {α : Type} (f : α → ℚ) (l : List α) :
    ∀ (b : ℚ) (o : Option α),
      ((∀ a ∈ l, f a ≤ b) ∧
        l.foldl (fun acc x => if acc.1 < f x then (f x, some x) else acc) (b, o) = (b, o)) ∨
      (∃ (i : ℕ) (hi : i < l.length),
        l.foldl (fun acc x => if acc.1 < f x then (f x, some x) else acc) (b, o) =
          (f l[i], some l[i]) ∧
        b < f l[i] ∧
        (∀ (j : ℕ) (hj : j < l.length), f l[j] ≤ f l[i]) ∧
        (∀ (j : ℕ) (hj : j < l.length), j < i → f l[j] < f l[i])) := by
  induction l with
  | nil => intro b o; left; exact ⟨by simp, rfl⟩
  | cons a t ih =>
      intro b o
      rw [List.foldl_cons]
      by_cases hba : b < f a
      · rw [if_pos hba]
        rcases ih (f a) (some a) with ⟨hall, heq⟩ | ⟨i', hi', heq, hlt, hle, hstrict⟩
        · right
          refine ⟨0, by simp, by simpa using heq, by simpa using hba, ?_, ?_⟩
          · intro j hj
            cases j with
            | zero => simp
            | succ j' =>
                simp only [List.getElem_cons_succ, List.getElem_cons_zero]
                exact hall _ (List.getElem_mem _)
          · intro j hj hj0
            exact absurd hj0 (Nat.not_lt_zero j)
        · right
          refine ⟨i' + 1, by simpa using hi', by simpa using heq, ?_, ?_, ?_⟩
          · simp only [List.getElem_cons_succ]
            exact lt_trans hba hlt
          · intro j hj
            simp only [List.length_cons] at hj
            cases j with
            | zero =>
                simp only [List.getElem_cons_succ, List.getElem_cons_zero]
                exact le_of_lt hlt
            | succ j' =>
                simp only [List.getElem_cons_succ]
                exact hle j' (by omega)
          · intro j hj hji
            simp only [List.length_cons] at hj
            cases j with
            | zero =>
                simp only [List.getElem_cons_succ, List.getElem_cons_zero]
                exact hlt
            | succ j' =>
                simp only [List.getElem_cons_succ]
                exact hstrict j' (by omega) (by omega)
      · rw [if_neg hba]
        rcases ih b o with ⟨hall, heq⟩ | ⟨i', hi', heq, hlt, hle, hstrict⟩
        · left
          refine ⟨?_, heq⟩
          intro x hx
          rcases List.mem_cons.mp hx with rfl | hx'
          · exact not_lt.mp hba
          · exact hall x hx'
        · right
          refine ⟨i' + 1, by simpa using hi', by simpa using heq, ?_, ?_, ?_⟩
          · simp only [List.getElem_cons_succ]
            exact hlt
          · intro j hj
            simp only [List.length_cons] at hj
            cases j with
            | zero =>
                simp only [List.getElem_cons_succ, List.getElem_cons_zero]
                exact le_of_lt (lt_of_le_of_lt (not_lt.mp hba) hlt)
            | succ j' =>
                simp only [List.getElem_cons_succ]
                exact hle j' (by omega)
          · intro j hj hji
            simp only [List.length_cons] at hj
            cases j with
            | zero =>
                simp only [List.getElem_cons_succ, List.getElem_cons_zero]
                exact lt_of_le_of_lt (not_lt.mp hba) hlt
            | succ j' =>
                simp only [List.getElem_cons_succ]
                exact hstrict j' (by omega) (by omega)

/-- Python's `round` of a non-negative value is non-negative. -/
theorem pyRound_nonneg (q : ℚ) (h : 0 ≤ q) : 0 ≤ pyRound q := by
  rw [pyRound]
  have hfl : (0:ℤ) ≤ Int.floor q := Int.floor_nonneg.mpr h
  split_ifs <;> omega

/-- `fuzz.ratio` is never negative. -/
theorem fuzzRatioN_nonneg (s1 s2 : String) : 0 ≤ fuzzRatioN s1 s2 := by
  rw [fuzzRatioN]
  split_ifs with h
  · norm_num
  · apply pyRound_nonneg
    positivity

/-- The per-field similarity is never negative. -/
theorem simQ_nonneg (s1 s2 : String) : 0 ≤ simQ s1 s2 := by
  rw [simQ]
  have h := fuzzRatioN_nonneg s1 s2
  apply div_nonneg (by exact_mod_cast h) (by norm_num)

/-- The averaged similarity is never negative (so it always beats the
`-1` the fold starts from). -/
theorem avgSim_nonneg (fields : List String) (lr rr : Row) :
    0 ≤ avgSim fields lr rr := by
  rw [avgSim]
  apply div_nonneg
  · apply List.sum_nonneg
    intro x hx
    simp only [List.mem_map] at hx
    obtain ⟨f, hf, rfl⟩ := hx
    exact simQ_nonneg _ _
  · positivity

/-- Against a non-empty right side the fold keeps the first row
attaining the maximal average similarity. -/
theorem fuzzyBest_spec (fields : List String) (lr : Row) (rrows : List Row)
    (h : rrows ≠ []) :
    ∃ (i : ℕ) (hi : i < rrows.length),
      fuzzyBest fields lr rrows =
        (avgSim fields lr rrows[i], some rrows[i]) ∧
      (∀ (j : ℕ) (hj : j < rrows.length),
        avgSim fields lr rrows[j] ≤ avgSim fields lr rrows[i]) ∧
      (∀ (j : ℕ) (hj : j < rrows.length),
        avgSim fields lr rrows[j] = avgSim fields lr rrows[i] → i ≤ j) := by
  rcases bestFold_spec (avgSim fields lr) rrows (-1) none with
    ⟨hall, heq⟩ | ⟨i, hi, heq, hb, hle, hstrict⟩
  · obtain ⟨r, hr⟩ := List.exists_mem_of_ne_nil _ h
    have h1 := hall r hr
    have h0 := avgSim_nonneg fields lr r
    linarith
  · refine ⟨i, hi, heq, hle, ?_⟩
    intro j hj hjeq
    by_contra hij
    push_neg at hij
    exact absurd hjeq (ne_of_lt (hstrict j hj hij))

/-- C7: in `find_fuzzy_matches` (whose result, under the guards, is the
per-left-row `fuzzyRowMatch` over the prepared frames) every left row
retains a right row with the maximal average per-field similarity —
the first one in original row order on ties — and the pairing is
emitted exactly when that best score reaches the threshold. -/
theorem claim_C7 (fields : List String) (thr : ℚ) (lr : Row)
    (rrows : List Row) (h : rrows ≠ []) :
    (∀ df1 df2 : DataFrame, availableFields df1 df2 fields ≠ [] →
      0 ≤ thr → thr ≤ 1 →
      findFuzzyMatches df1 df2 fields thr =
        .ok ((prepareMatchingFields df1 (availableFields df1 df2 fields)).rows.filterMap
          (fuzzyRowMatch (availableFields df1 df2 fields) thr
            (prepareMatchingFields df2 (availableFields df1 df2 fields)).rows))) ∧
    ∃ (i : ℕ) (hi : i < rrows.length),
      (∀ (j : ℕ) (hj : j < rrows.length),
        avgSim fields lr rrows[j] ≤ avgSim fields lr rrows[i]) ∧
      (∀ (j : ℕ) (hj : j < rrows.length),
        avgSim fields lr rrows[j] = avgSim fields lr rrows[i] → i ≤ j) ∧
      fuzzyRowMatch fields thr rrows lr =
        (if thr ≤ avgSim fields lr rrows[i] then
          some ⟨lr, rrows[i], avgSim fields lr rrows[i]⟩ else none) := by
  constructor
  · intro df1 df2 hav h0 h1
    rw [findFuzzyMatches]
    rw [if_neg (by simpa [List.isEmpty_iff] using hav)]
    rw [if_neg (by simp [h0, h1])]
  · obtain ⟨i, hi, heq, hle, hfirst⟩ := fuzzyBest_spec fields lr rrows h
    refine ⟨i, hi, hle, hfirst, ?_⟩
    simp only [fuzzyRowMatch, heq]

/-- C7 witness: one left row against the single scenario-C right row at
threshold one half. -/
theorem claim_C7_witness :
    ∃ (i : ℕ) (hi : i < ([c4RRow] : List Row).length),
      (∀ (j : ℕ) (hj : j < ([c4RRow] : List Row).length),
        avgSim ["name"] c4LRow [c4RRow][j] ≤ avgSim ["name"] c4LRow [c4RRow][i]) ∧
      (∀ (j : ℕ) (hj : j < ([c4RRow] : List Row).length),
        avgSim ["name"] c4LRow [c4RRow][j] = avgSim ["name"] c4LRow [c4RRow][i] →
          i ≤ j) ∧
      fuzzyRowMatch ["name"] (1 / 2) [c4RRow] c4LRow =
        (if (1 : ℚ) / 2 ≤ avgSim ["name"] c4LRow [c4RRow][i] then
          some ⟨c4LRow, [c4RRow][i], avgSim ["name"] c4LRow [c4RRow][i]⟩
         else none) :=
  (claim_C7 ["name"] (1 / 2) c4LRow [c4RRow] (by simp)).2

/-- On the future-dated frame the completeness score is 1. -/
theorem c1_comp_eval : (assessCompleteness dfFutureDate none none).overall_completeness = 1 := by
  simp [assessCompleteness, dfFutureDate, DataFrame.ncol, ColData.notnaCount]
/-- On the future-dated frame the consistency score is 1 (datetime placeholder). -/
theorem c1_cons_eval : (assessConsistency dfFutureDate).overall_consistency_score = 1 := by
  simp [assessConsistency, dfFutureDate, meanQ]
/-- On the future-dated frame the uniqueness score is 1. -/
theorem c1_uniq_eval : (assessUniqueness dfFutureDate).uniqueness_score = 1 := by
  have hdup : pdDuplicatedCount [] dfFutureDate.rows = 0 := by decide
  simp [assessUniqueness, dfFutureDate] at hdup ⊢
  simp [hdup]
/-- On the future-dated frame the accuracy score is 1. -/
theorem c1_acc_eval : (assessAccuracy dfFutureDate).overall_accuracy_score = 1 := by
  simp [assessAccuracy, dfFutureDate, assessAccuracyField]
/-- On the future-dated frame the timeliness score is 50.5: ages are [10, -1000] days, so the normalized mean is far below zero. -/
theorem c1_tim_eval : (assessTimeliness dfFutureDate none 0).timeliness_score = 101/2 := by
  simp [assessTimeliness, tlPerField, tlFields, autoDetectDateFields, dfFutureDate,
        DataFrame.getCol, assessTimelinessField, toDatetimeVals, listMaxZ, listMinZ, meanQ]
  norm_num

/-- C1 counterexample: a frame whose datetime column holds one date 1000
days in the future of the reference time gets overall_score = 5.95,
refuting "overall_score always lies in [0,1]". -/
theorem claim_C1_counterexample :
    (generateOverallAssessment ⟨[]⟩ dfFutureDate none none none none 0).1.overall_score = 119/20 ∧
    (1 : ℚ) < 119/20 := by
  constructor
  · show (computeMetrics dfFutureDate none none none none 0).overall_score = 119/20
    simp only [computeMetrics, c1_comp_eval, c1_cons_eval, c1_uniq_eval, c1_acc_eval, c1_tim_eval]
    norm_num
  · norm_num

/-- The mean of non-negative values is non-negative. -/
theorem meanQ_nonneg (l : List ℚ) (h : ∀ x ∈ l, 0 ≤ x) : 0 ≤ meanQ l := by
  rw [meanQ]
  exact div_nonneg (List.sum_nonneg h) (by positivity)

/-- The mean of values bounded by one is at most one. -/
theorem meanQ_le_one (l : List ℚ) (h : ∀ x ∈ l, x ≤ 1) : meanQ l ≤ 1 := by
  rw [meanQ]
  rcases eq_or_ne l [] with rfl | hne
  · simp
  · have hlen : 0 < (l.length : ℚ) := by
      exact_mod_cast List.length_pos.mpr hne
    rw [div_le_one hlen]
    have := List.sum_le_card_nsmul l 1 h
    simpa using this

/-- A column has at most as many non-null values as values. -/
theorem notnaCount_le_len (cd : ColData) : cd.notnaCount ≤ cd.len := by
  cases cd <;> exact List.countP_le_length _

/-- Total non-null cells are bounded by rows times columns. -/
theorem sum_notna_le_aux (cols : List Column) (n : ℕ)
    (h : ∀ c ∈ cols, c.data.len = n) :
    (cols.map (·.data.notnaCount)).sum ≤ n * cols.length := by
  induction cols with
  | nil => simp
  | cons c t ih =>
      simp only [List.map_cons, List.sum_cons, List.length_cons]
      have h1 : c.data.notnaCount ≤ n :=
        h c (List.mem_cons_self c t) ▸ notnaCount_le_len c.data
      have h2 := ih (fun c hc => h c (List.mem_cons_of_mem _ hc))
      have : n * (t.length + 1) = n * t.length + n := by ring
      omega

/-- Value of the overall completeness score. -/
theorem completeness_val (df : DataFrame) (c i : Option (List String)) :
    (assessCompleteness df c i).overall_completeness =
      if df.nrow = 0 then 0
      else if 0 < df.nrow * df.ncol then
        (((df.cols.map (·.data.notnaCount)).sum : ℕ) : ℚ) / ((df.nrow * df.ncol : ℕ) : ℚ)
      else 0 := by
  rw [assessCompleteness]
  by_cases h0 : df.nrow = 0
  · simp [h0]
  · rw [if_neg h0, if_neg h0]

/-- The overall completeness score lies in [0,1] on well-formed frames. -/
theorem completeness_bounds (df : DataFrame) (hwf : df.WF)
    (c i : Option (List String)) :
    0 ≤ (assessCompleteness df c i).overall_completeness ∧
    (assessCompleteness df c i).overall_completeness ≤ 1 := by
  rw [completeness_val]
  split_ifs with h0 ht
  · norm_num
  · have hle : (df.cols.map (·.data.notnaCount)).sum ≤ df.nrow * df.ncol := by
      rw [DataFrame.ncol]
      simpa [Nat.mul_comm] using sum_notna_le_aux df.cols df.nrow hwf
    constructor
    · positivity
    · rw [div_le_one (by exact_mod_cast ht)]
      exact_mod_cast hle
  · norm_num

/-- The keep-first duplicate count never exceeds the list length. -/
theorem pdDup_le_length {α : Type} [DecidableEq α] (l : List α) :
    ∀ seen : List α, pdDuplicatedCount seen l ≤ l.length := by
  induction l with
  | nil => intro seen; simp [pdDuplicatedCount]
  | cons a t ih =>
      intro seen
      rw [pdDuplicatedCount, List.length_cons]
      have := ih (a :: seen)
      split_ifs <;> omega

/-- A frame has `nrow` rows. -/
theorem rows_length (df : DataFrame) : df.rows.length = df.nrow := by
  simp [DataFrame.rows]

/-- The uniqueness score lies in [0,1]. -/
theorem uniqueness_bounds (df : DataFrame) :
    0 ≤ (assessUniqueness df).uniqueness_score ∧
    (assessUniqueness df).uniqueness_score ≤ 1 := by
  rw [assessUniqueness]
  by_cases h0 : df.nrow = 0
  · rw [if_pos h0]; norm_num
  · rw [if_neg h0]
    dsimp only
    have hle : pdDuplicatedCount [] df.rows ≤ df.nrow := by
      have := pdDup_le_length df.rows []
      rwa [rows_length] at this
    have hpos : (0:ℚ) < (df.nrow : ℚ) := by
      exact_mod_cast Nat.pos_of_ne_zero h0
    have hrate0 : (0:ℚ) ≤ (pdDuplicatedCount [] df.rows : ℚ) / (df.nrow : ℚ) :=
      div_nonneg (by positivity) (le_of_lt hpos)
    have hrate1 : (pdDuplicatedCount [] df.rows : ℚ) / (df.nrow : ℚ) ≤ 1 := by
      rw [div_le_one hpos]; exact_mod_cast hle
    constructor <;> [linarith; linarith]

/-- Per-field invalid values never exceed the counted values. -/
theorem accField_invalid_le (c : Column) :
    (assessAccuracyField c).invalid_count ≤ (assessAccuracyField c).total_count := by
  obtain ⟨name, data⟩ := c
  cases data
  · exact List.countP_le_length _
  · exact List.countP_le_length _
  · exact Nat.zero_le _

/-- `1 - a/b` lies in [0,1] for naturals `a <= b` (0 when `b = 0`). -/
theorem one_sub_div_bounds (a b : ℕ) (hab : a ≤ b) :
    0 ≤ (if b > 0 then 1 - (a:ℚ)/(b:ℚ) else 0) ∧
    (if b > 0 then 1 - (a:ℚ)/(b:ℚ) else 0) ≤ 1 := by
  split_ifs with h
  · have hpos : (0:ℚ) < b := by exact_mod_cast h
    have h1 : (a:ℚ)/(b:ℚ) ≤ 1 := by
      rw [div_le_one hpos]; exact_mod_cast hab
    have h0 : (0:ℚ) ≤ (a:ℚ)/(b:ℚ) := by positivity
    constructor <;> linarith
  · norm_num

/-- The overall accuracy score lies in [0,1]. -/
theorem accuracy_bounds (df : DataFrame) :
    0 ≤ (assessAccuracy df).overall_accuracy_score ∧
    (assessAccuracy df).overall_accuracy_score ≤ 1 := by
  rw [assessAccuracy]
  dsimp only
  apply one_sub_div_bounds
  simp only [List.map_map]
  apply List.sum_le_sum
  intro c hc
  exact accField_invalid_le c

/-- The overall consistency score lies in [0,1]. -/
theorem consistency_bounds (df : DataFrame) :
    0 ≤ (assessConsistency df).overall_consistency_score ∧
    (assessConsistency df).overall_consistency_score ≤ 1 := by
  rw [assessConsistency]
  dsimp only
  split_ifs with h
  · norm_num
  · have hb : ∀ x ∈ (df.cols.filterMap (fun c =>
        match c.data with
        | .object l =>
            let nn := l.filterMap id
            if nn.isEmpty then none
            else some (c.name, (nn.countP matchesNumPattern : ℚ) / (nn.length : ℚ))
        | _ => none)).map (fun p => p.2) ++
        (df.cols.filterMap (fun c =>
          match c.data with
          | .datetime l =>
              if (l.filterMap id).isEmpty then none else some (c.name, (1 : ℚ))
          | _ => none)).map (fun p => p.2), 0 ≤ x ∧ x ≤ 1 := by
      intro x hx
      rcases List.mem_append.mp hx with hx | hx
      · obtain ⟨p, hp, rfl⟩ := List.mem_map.mp hx
        obtain ⟨c, hc, hpc⟩ := List.mem_filterMap.mp hp
        obtain ⟨nm, cd⟩ := c
        cases cd with
        | object l =>
            dsimp only at hpc
            split_ifs at hpc with hne
            rcases Option.some_inj.mp hpc with rfl
            have hlen : 0 < ((l.filterMap id).length : ℚ) := by
              have : l.filterMap id ≠ [] := by
                simpa [List.isEmpty_iff] using hne
              exact_mod_cast List.length_pos.mpr this
            constructor
            · positivity
            · rw [div_le_one hlen]
              exact_mod_cast List.countP_le_length _
        | numeric l => simp at hpc
        | datetime l => simp at hpc
      · obtain ⟨p, hp, rfl⟩ := List.mem_map.mp hx
        obtain ⟨c, hc, hpc⟩ := List.mem_filterMap.mp hp
        obtain ⟨nm, cd⟩ := c
        cases cd with
        | datetime l =>
            dsimp only at hpc
            split_ifs at hpc
            rcases Option.some_inj.mp hpc with rfl
            norm_num
        | numeric l => simp at hpc
        | object l => simp at hpc
    exact ⟨meanQ_nonneg _ (fun x hx => (hb x hx).1),
           meanQ_le_one _ (fun x hx => (hb x hx).2)⟩

/-- A max-fold dominates its initial value. -/
theorem foldlMax_init (t : List ℤ) : ∀ a : ℤ, a ≤ t.foldl max a := by
  induction t with
  | nil => intro a; simp
  | cons b t ih =>
      intro a
      rw [List.foldl_cons]
      exact le_trans (le_max_left a b) (ih (max a b))

/-- A max-fold dominates every element. -/
theorem foldlMax_mem (t : List ℤ) : ∀ (a x : ℤ), x ∈ t → x ≤ t.foldl max a := by
  induction t with
  | nil => intro a x hx; simp at hx
  | cons b t ih =>
      intro a x hx
      rw [List.foldl_cons]
      rcases List.mem_cons.mp hx with rfl | hx'
      · exact le_trans (le_max_right a x) (foldlMax_init t _)
      · exact ih _ x hx'

/-- `listMaxZ` dominates every element. -/
theorem listMaxZ_ge (l : List ℤ) (x : ℤ) (hx : x ∈ l) : x ≤ listMaxZ l := by
  cases l with
  | nil => simp at hx
  | cons a t =>
      rw [listMaxZ]
      rcases List.mem_cons.mp hx with rfl | hx'
      · exact foldlMax_init t x
      · exact foldlMax_mem t a x hx'

/-- Any per-field timeliness score that gets appended is non-negative,
and is at most one when no date lies in the reference time's future. -/
theorem tlf_score_bounds (now : ℤ) (c : Column) (x : ℚ)
    (hx : (assessTimelinessField now c).2 = some x) :
    0 ≤ x ∧ ((∀ d ∈ toDatetimeVals c, d ≤ now) → x ≤ 1) := by
  rw [assessTimelinessField] at hx
  by_cases hd : (toDatetimeVals c).isEmpty
  · rw [if_pos hd] at hx; simp at hx
  · rw [if_neg hd] at hx
    dsimp only at hx
    by_cases hm : 0 < listMaxZ ((toDatetimeVals c).map (fun d => now - d))
    · rw [if_pos hm] at hx
      dsimp only at hx
      rw [Option.some_inj] at hx
      subst hx
      have hmq : (0:ℚ) <
          (listMaxZ ((toDatetimeVals c).map (fun d => now - d)) : ℚ) := by
        exact_mod_cast hm
      constructor
      · have h1 : meanQ (((toDatetimeVals c).map (fun d => now - d)).map
            (fun (a : ℤ) => (a:ℚ) /
              (listMaxZ ((toDatetimeVals c).map (fun d => now - d)) : ℚ))) ≤ 1 := by
          apply meanQ_le_one
          intro y hy
          obtain ⟨a, ha, rfl⟩ := List.mem_map.mp hy
          rw [div_le_one hmq]
          exact_mod_cast listMaxZ_ge _ a ha
        linarith
      · intro hdnow
        have h0 : 0 ≤ meanQ (((toDatetimeVals c).map (fun d => now - d)).map
            (fun (a : ℤ) => (a:ℚ) /
              (listMaxZ ((toDatetimeVals c).map (fun d => now - d)) : ℚ))) := by
          apply meanQ_nonneg
          intro y hy
          obtain ⟨a, ha, rfl⟩ := List.mem_map.mp hy
          obtain ⟨d, hdmem, rfl⟩ := List.mem_map.mp ha
          have hnn : (0:ℤ) ≤ now - d := by
            have := hdnow d hdmem; omega
          exact div_nonneg (by exact_mod_cast hnn) (le_of_lt hmq)
        linarith
    · rw [if_neg hm] at hx; simp at hx

/-- The overall timeliness score lies in [0,1] when no date is in the
future of the reference time. -/
theorem timeliness_bounds (df : DataFrame) (dates : Option (List String))
    (now : ℤ)
    (hdates : ∀ c ∈ df.cols, ∀ d ∈ toDatetimeVals c, d ≤ now) :
    0 ≤ (assessTimeliness df dates now).timeliness_score ∧
    (assessTimeliness df dates now).timeliness_score ≤ 1 := by
  rw [assessTimeliness]
  dsimp only
  have hmem : ∀ x ∈ (tlPerField df dates now).filterMap (fun p => p.2.2),
      0 ≤ x ∧ x ≤ 1 := by
    intro x hx
    obtain ⟨p, hp, hpx⟩ := List.mem_filterMap.mp hx
    rw [tlPerField] at hp
    obtain ⟨f, hf, hfp⟩ := List.mem_filterMap.mp hp
    obtain ⟨c, hc, rfl⟩ := Option.map_eq_some'.mp hfp
    rw [DataFrame.getCol] at hc
    have hb := tlf_score_bounds now c x hpx
    exact ⟨hb.1, hb.2 (hdates c (List.mem_of_find?_eq_some hc))⟩
  split_ifs with h
  · norm_num
  · exact ⟨meanQ_nonneg _ (fun x hx => (hmem x hx).1),
          meanQ_le_one _ (fun x hx => (hmem x hx).2)⟩

/-- C1 (amended): `generate_overall_assessment` computes
`overall_score` as the weighted sum
`0.25*completeness + 0.20*consistency + 0.20*uniqueness +
0.25*accuracy + 0.10*timeliness`, the five weights sum to exactly 1,
and `overall_score` is always non-negative and lies in [0,1] whenever
no date value lies in the future of the reference time; with
future-dated values the timeliness score can exceed 1 and push
`overall_score` above 1. -/
theorem claim_C1 (qa : QualityAssessmentState) (df : DataFrame)
    (critical important keys dates : Option (List String)) (now : ℤ)
    (hwf : df.WF)
    (hdates : ∀ c ∈ df.cols, ∀ d ∈ toDatetimeVals c, d ≤ now) :
    (generateOverallAssessment qa df critical important keys dates now).1 =
      computeMetrics df critical important keys dates now ∧
    (computeMetrics df critical important keys dates now).overall_score =
      0.25 * (assessCompleteness df critical important).overall_completeness +
      0.20 * (assessConsistency df).overall_consistency_score +
      0.20 * (assessUniqueness df).uniqueness_score +
      0.25 * (assessAccuracy df).overall_accuracy_score +
      0.10 * (assessTimeliness df dates now).timeliness_score ∧
    ((0.25 : ℚ) + 0.20 + 0.20 + 0.25 + 0.10 = 1) ∧
    0 ≤ (computeMetrics df critical important keys dates now).overall_score ∧
    (computeMetrics df critical important keys dates now).overall_score ≤ 1 := by
  refine ⟨rfl, ?_, by norm_num, ?_, ?_⟩
  · simp only [computeMetrics]; ring
  · obtain ⟨hc0, hc1⟩ := completeness_bounds df hwf critical important
    obtain ⟨hs0, hs1⟩ := consistency_bounds df
    obtain ⟨hu0, hu1⟩ := uniqueness_bounds df
    obtain ⟨ha0, ha1⟩ := accuracy_bounds df
    obtain ⟨ht0, ht1⟩ := timeliness_bounds df dates now hdates
    simp only [computeMetrics]
    linarith
  · obtain ⟨hc0, hc1⟩ := completeness_bounds df hwf critical important
    obtain ⟨hs0, hs1⟩ := consistency_bounds df
    obtain ⟨hu0, hu1⟩ := uniqueness_bounds df
    obtain ⟨ha0, ha1⟩ := accuracy_bounds df
    obtain ⟨ht0, ht1⟩ := timeliness_bounds df dates now hdates
    simp only [computeMetrics]
    linarith

/-- C1 witness: a well-formed frame with only past dates at reference
day 0. -/
theorem claim_C1_witness :
    0 ≤ (computeMetrics dfPastDate none none none none 0).overall_score ∧
    (computeMetrics dfPastDate none none none none 0).overall_score ≤ 1 := by
  have h := claim_C1 ⟨[]⟩ dfPastDate none none none none 0 (by decide) (by decide)
  exact ⟨h.2.2.2.1, h.2.2.2.2⟩

-- (E) repU3000 identity when no full-width space
/-- Replacing full-width spaces is a no-op when none are present. -/
theorem repU3000_id (l : List Char) (h : '　' ∉ l) : repU3000 l = l := by
  induction l with
  | nil => rfl
  | cons a t ih =>
      rw [repU3000, List.map_cons]
      rw [List.mem_cons] at h
      push_neg at h
      rw [if_neg (fun he => h.1 he.symm)]
      exact congrArg _ (by rw [← repU3000]; exact ih h.2)

-- membership through the pipeline
/-- Characters after the full-width-space replacement come from the
input or are plain spaces. -/
theorem mem_repU3000 (l : List Char) (c : Char) (hc : c ∈ repU3000 l) :
    c = ' ' ∨ c ∈ l := by
  rw [repU3000] at hc
  obtain ⟨a, ha, hac⟩ := List.mem_map.mp hc
  by_cases h : a = '　'
  · rw [if_pos h] at hac; exact Or.inl hac.symm
  · rw [if_neg h] at hac; exact Or.inr (hac ▸ ha)

/-- Trailing-strip only removes characters. -/
theorem mem_dropTrailingWs (l : List Char) (c : Char) :
    c ∈ dropTrailingWs l → c ∈ l := by
  induction l with
  | nil => intro h; simpa [dropTrailingWs] using h
  | cons a t ih =>
      intro h
      rw [dropTrailingWs] at h
      split_ifs at h with hc
      · simp at h
      · rcases List.mem_cons.mp h with rfl | h'
        · exact List.mem_cons_self _ _
        · exact List.mem_cons_of_mem _ (ih h')

/-- Stripping only removes characters. -/
theorem mem_stripChars (l : List Char) (c : Char) (hc : c ∈ stripChars l) :
    c ∈ l := by
  rw [stripChars] at hc
  exact (List.dropWhile_sublist _).mem (mem_dropTrailingWs _ c hc)

/-- Collapsing only keeps input characters or inserts plain spaces. -/
theorem mem_collapseWs (l : List Char) (c : Char) :
    c ∈ collapseWs l → c = ' ' ∨ c ∈ l := by
  induction l with
  | nil => intro h; simp [collapseWs] at h
  | cons a t ih =>
      cases t with
      | nil =>
          intro h
          rw [collapseWs] at h
          split_ifs at h with ha
          · simp at h; exact Or.inl h
          · simp at h; exact Or.inr (by simp [h])
      | cons b t2 =>
          intro h
          rw [collapseWs] at h
          split_ifs at h with h1 h2
          · rcases ih h with h' | h'
            · exact Or.inl h'
            · exact Or.inr (List.mem_cons_of_mem _ h')
          · rcases List.mem_cons.mp h with rfl | h'
            · exact Or.inl rfl
            · rcases ih h' with h'' | h''
              · exact Or.inl h''
              · exact Or.inr (List.mem_cons_of_mem _ h'')
          · rcases List.mem_cons.mp h with rfl | h'
            · exact Or.inr (List.mem_cons_self _ _)
            · rcases ih h' with h'' | h''
              · exact Or.inl h''
              · exact Or.inr (List.mem_cons_of_mem _ h'')

/-- Suffix-stripping only removes characters. -/
theorem mem_stripDot0 (l : List Char) (c : Char) (hc : c ∈ stripDot0 l) :
    c ∈ l := by
  rw [stripDot0] at hc
  split_ifs at hc
  · exact (List.dropLast_sublist _).mem ((List.dropLast_sublist _).mem hc)
  · exact hc

-- strip is the identity when neither end is whitespace
/-- Leading-strip is a no-op when the head is not whitespace. -/
theorem dropWhile_id_of_head (l : List Char)
    (h : ∀ c, l.head? = some c → isWsC c = false) :
    l.dropWhile isWsC = l := by
  cases l with
  | nil => rfl
  | cons a t =>
      rw [List.dropWhile_cons, h a rfl]
      simp

/-- Trailing-strip is a no-op when the last character is not
whitespace. -/
theorem dropTrailingWs_id_of_last (l : List Char)
    (h : lastWs l = false) : dropTrailingWs l = l := by
  induction l with
  | nil => rfl
  | cons a t ih =>
      cases t with
      | nil =>
          rw [lastWs] at h
          simp only [List.getLast?_singleton] at h
          rw [dropTrailingWs, dropTrailingWs]
          simp [h]
      | cons b t2 =>
          rw [lastWs, List.getLast?_cons_cons] at h
          have ht : dropTrailingWs (b :: t2) = b :: t2 := by
            apply ih
            rw [lastWs]
            exact h
          rw [dropTrailingWs, ht]
          simp

/-- `strip` is a no-op when neither end is whitespace. -/
theorem stripChars_id (l : List Char)
    (hh : ∀ c, l.head? = some c → isWsC c = false)
    (hl : lastWs l = false) : stripChars l = l := by
  rw [stripChars, dropWhile_id_of_head l hh, dropTrailingWs_id_of_last l hl]

/-- No full-width space survives the replacement. -/
theorem repU3000_no_u3000 (l : List Char) (c : Char) (hc : c ∈ repU3000 l) :
    c ≠ '　' := by
  rw [repU3000] at hc
  obtain ⟨a, ha, hac⟩ := List.mem_map.mp hc
  by_cases h : a = '　'
  · rw [if_pos h] at hac; subst hac; decide
  · rw [if_neg h] at hac; subst hac; exact h

/-- Trailing-strip yields a prefix of its input. -/
theorem dropTrailingWs_append (m : List Char) :
    ∃ s, m = dropTrailingWs m ++ s := by
  induction m with
  | nil => exact ⟨[], rfl⟩
  | cons a t ih =>
      rw [dropTrailingWs]
      split_ifs with h
      · exact ⟨a :: t, rfl⟩
      · obtain ⟨s, hs⟩ := ih
        exact ⟨s, by rw [List.cons_append, ← hs]⟩

/-- The head surviving a leading whitespace strip is not whitespace. -/
theorem head_dropWhileWs (l : List Char) (c : Char)
    (hc : (l.dropWhile isWsC).head? = some c) : isWsC c = false := by
  induction l with
  | nil => simp at hc
  | cons a t ih =>
      rw [List.dropWhile_cons] at hc
      split_ifs at hc with h
      · exact ih hc
      · rw [List.head?_cons, Option.some_inj] at hc
        subst hc
        simpa using h

/-- The head of a stripped value is not whitespace. -/
theorem stripChars_head (l : List Char) (c : Char)
    (hc : (stripChars l).head? = some c) : isWsC c = false := by
  rw [stripChars] at hc
  obtain ⟨s, hs⟩ := dropTrailingWs_append (l.dropWhile isWsC)
  apply head_dropWhileWs l c
  rw [hs]
  cases hdt : dropTrailingWs (l.dropWhile isWsC) with
  | nil => rw [hdt] at hc; simp at hc
  | cons x xs =>
      rw [hdt] at hc
      simpa using hc

/-- Collapsing preserves a non-whitespace head. -/
theorem collapseWs_head_nws (m : List Char)
    (hm : ∀ c0, m.head? = some c0 → isWsC c0 = false) :
    ∀ c, (collapseWs m).head? = some c → isWsC c = false := by
  cases m with
  | nil => intro c hc; simp [collapseWs] at hc
  | cons a t =>
      have ha : isWsC a = false := hm a rfl
      cases t with
      | nil =>
          intro c hc
          rw [collapseWs, if_neg (by simp [ha])] at hc
          rw [List.head?_cons, Option.some_inj] at hc
          subst hc; exact ha
      | cons b t2 =>
          intro c hc
          rw [collapseWs, if_neg (by simp [ha])] at hc
          rw [List.head?_cons, Option.some_inj] at hc
          subst hc; exact ha

/-- `dropLast` preserves the head when non-empty. -/
theorem head_dropLast (l : List Char) (c : Char)
    (hc : l.dropLast.head? = some c) : l.head? = some c := by
  cases l with
  | nil => simp at hc
  | cons a t =>
      cases t with
      | nil => simp at hc
      | cons b t2 =>
          rw [show (a :: b :: t2).dropLast = a :: (b :: t2).dropLast from rfl] at hc
          simpa using hc

/-- Suffix-stripping preserves the head when non-empty. -/
theorem stripDot0_head (l : List Char) (c : Char)
    (hc : (stripDot0 l).head? = some c) : l.head? = some c := by
  rw [stripDot0] at hc
  split_ifs at hc
  · exact head_dropLast _ _ (head_dropLast _ _ hc)
  · exact hc

/-- Extending a well-collapsed value with a compatible character. -/
theorem wsOk_cons (c : Char) (X : List Char)
    (h1 : isWsC c = false ∨ c = ' ')
    (h2 : ∀ d, X.head? = some d → ¬(isWsC c = true ∧ isWsC d = true))
    (h3 : wsOk X = true) : wsOk (c :: X) = true := by
  cases X with
  | nil =>
      rw [wsOk]
      rcases h1 with h | h <;> simp [h]
  | cons d t =>
      rw [wsOk]
      have hd := h2 d rfl
      simp only [Bool.and_eq_true, Bool.or_eq_true, Bool.not_eq_true']
      refine ⟨⟨?_, ?_⟩, h3⟩
      · rcases h1 with h | h <;> simp [h]
      · by_cases hc : isWsC c
        · by_cases hdd : isWsC d
          · exact absurd ⟨hc, hdd⟩ hd
          · simp [hc, hdd]
        · simp [hc]

/-- Collapsing keeps a non-whitespace head character in place. -/
theorem collapseWs_head_eq (b : Char) (t2 : List Char)
    (hb : isWsC b = false) : (collapseWs (b :: t2)).head? = some b := by
  cases t2 with
  | nil => rw [collapseWs, if_neg (by simp [hb])]; rfl
  | cons c t3 => rw [collapseWs, if_neg (by simp [hb])]; rfl

/-- The collapse output is well-collapsed. -/
theorem collapseWs_wsOk (m : List Char) : wsOk (collapseWs m) = true := by
  induction m with
  | nil => rfl
  | cons a t ih =>
      cases t with
      | nil =>
          rw [collapseWs]
          split_ifs with h
          · decide
          · rw [wsOk]; simp [h]
      | cons b t2 =>
          rw [collapseWs]
          split_ifs with h1 h2
          · exact ih
          · apply wsOk_cons
            · right; rfl
            · intro d hd
              rw [collapseWs_head_eq b t2 (by simpa using h2), Option.some_inj] at hd
              subst hd
              rintro ⟨-, hdd⟩
              simp [hdd] at h2
            · exact ih
          · apply wsOk_cons
            · left; simpa using h1
            · rintro d hd ⟨ha, -⟩
              simp [ha] at h1
            · exact ih

/-- Collapsing is a no-op on well-collapsed values. -/
theorem collapseWs_id_of_wsOk (m : List Char) (h : wsOk m = true) :
    collapseWs m = m := by
  induction m with
  | nil => rfl
  | cons a t ih =>
      cases t with
      | nil =>
          rw [wsOk] at h
          rw [collapseWs]
          split_ifs with ha
          · simp only [Bool.or_eq_true, Bool.not_eq_true'] at h
            rcases h with h | h
            · rw [ha] at h; exact absurd h (by decide)
            · have := of_decide_eq_true h; subst this; rfl
          · rfl
      | cons b t2 =>
          rw [wsOk] at h
          simp only [Bool.and_eq_true, Bool.or_eq_true, Bool.not_eq_true',
                     Bool.not_eq_true] at h
          obtain ⟨⟨h1, h2⟩, h3⟩ := h
          rw [collapseWs]
          split_ifs with ha hb
          · rw [ha, hb] at h2; simp at h2
          · have ht := ih (by simpa [wsOk] using h3)
            rw [ht]
            rcases h1 with h1 | h1
            · rw [ha] at h1; exact absurd h1 (by decide)
            · have := of_decide_eq_true h1; subst this; rfl
          · have ht := ih (by simpa [wsOk] using h3)
            rw [ht]

/-- A prefix of a well-collapsed value is well-collapsed. -/
theorem wsOk_append_left (xs ys : List Char) (h : wsOk (xs ++ ys) = true) :
    wsOk xs = true := by
  induction xs with
  | nil => rfl
  | cons x xs' ih =>
      cases xs' with
      | nil =>
          cases ys with
          | nil => simpa using h
          | cons y ys' =>
              rw [List.cons_append, List.nil_append] at h
              simp only [wsOk, Bool.and_eq_true] at h
              exact h.1.1
      | cons x2 xs'' =>
          rw [List.cons_append] at h
          simp only [wsOk, Bool.and_eq_true] at h
          obtain ⟨⟨h1, h2⟩, h3⟩ := h
          simp only [wsOk, Bool.and_eq_true]
          exact ⟨⟨h1, h2⟩, ih h3⟩

/-- A value ending in `.0` decomposes as its twice-dropped front plus
that suffix. -/
theorem endsDot0_decomp (l : List Char) (h : endsDot0 l = true) :
    l = l.dropLast.dropLast ++ ['.', '0'] := by
  rw [endsDot0] at h
  split at h
  case h_1 r heq =>
      have hl : l = r.reverse ++ ['.', '0'] := by
        have := congrArg List.reverse heq
        simpa using this
      have hd : l.dropLast.dropLast = r.reverse := by
        rw [hl]
        rw [show r.reverse ++ ['.', '0'] = (r.reverse ++ ['.']) ++ ['0'] by simp]
        rw [List.dropLast_concat, List.dropLast_concat]
      rw [hd, ← hl]
  case h_2 => simp at h

/-- Suffix-stripping preserves well-collapsedness. -/
theorem wsOk_stripDot0 (l : List Char) (h : wsOk l = true) :
    wsOk (stripDot0 l) = true := by
  rw [stripDot0]
  split_ifs with hd
  · exact wsOk_append_left _ _ ((endsDot0_decomp l hd) ▸ h)
  · exact h

/-- Suffix-stripping is a no-op without the `.0` suffix. -/
theorem stripDot0_id (l : List Char) (h : endsDot0 l = false) :
    stripDot0 l = l := by
  rw [stripDot0, h]
  simp

/-- Core idempotence: re-normalizing a normalized value is a no-op as
long as that value does not end in whitespace or in another `.0`
artifact (the two residues a single pass can leave behind). -/
theorem normKey_idem (l : List Char)
    (hws : lastWs (normKeyChars l) = false)
    (hdot : endsDot0 (normKeyChars l) = false) :
    normKeyChars (normKeyChars l) = normKeyChars l := by
  have hu3 : '　' ∉ normKeyChars l := by
    intro hmem
    rw [normKeyChars] at hmem
    have h1 := mem_stripDot0 _ _ hmem
    rcases mem_collapseWs _ _ h1 with h2 | h2
    · exact absurd h2 (by decide)
    · exact repU3000_no_u3000 _ _ (mem_stripChars _ _ h2) rfl
  have hhead : ∀ c, (normKeyChars l).head? = some c → isWsC c = false := by
    intro c hc
    rw [normKeyChars] at hc
    have h1 := stripDot0_head _ _ hc
    exact collapseWs_head_nws _ (fun c0 hc0 => stripChars_head _ c0 hc0) c h1
  have hwsok : wsOk (normKeyChars l) = true := by
    rw [normKeyChars]
    exact wsOk_stripDot0 _ (collapseWs_wsOk _)
  conv_lhs => rw [normKeyChars]
  rw [repU3000_id _ hu3, stripChars_id _ hhead hws,
      collapseWs_id_of_wsOk _ hwsok, stripDot0_id _ hdot]

/-- String-level idempotence under the same residue conditions. -/
theorem normalizeJoinKeyStr_idem (s : String)
    (hws : lastWs (normKeyChars s.toList) = false)
    (hdot : endsDot0 (normKeyChars s.toList) = false) :
    normalizeJoinKeyStr (normalizeJoinKeyStr s) = normalizeJoinKeyStr s := by
  simp only [normalizeJoinKeyStr]
  rw [show (String.mk (normKeyChars s.toList)).toList = normKeyChars s.toList from rfl]
  rw [normKey_idem _ hws hdot]

/-- C3 (amended): `_normalize_join_key` applied twice equals one
application on every column whose once-normalized values do not end in
whitespace or in a remaining trailing `.0` — the regex strips only one
`.0` suffix and may expose a space, so values such as `"1.0.0"` or
`"a .0"` violate idempotence. -/
theorem claim_C3 (col : List (Option String))
    (h : ∀ s : String, some s ∈ col →
      lastWs (normKeyChars s.toList) = false ∧
      endsDot0 (normKeyChars s.toList) = false) :
    normalizeJoinKeyCol (normalizeJoinKeyCol col) = normalizeJoinKeyCol col := by
  simp only [normalizeJoinKeyCol]
  rw [List.map_map]
  apply List.map_congr_left
  intro v hv
  cases v with
  | none => rfl
  | some s =>
      have hs := h s hv
      show some (normalizeJoinKeyStr (normalizeJoinKeyStr s)) =
        some (normalizeJoinKeyStr s)
      rw [normalizeJoinKeyStr_idem s hs.1 hs.2]

/-- C3 witness: a column of ordinary values (trailing blanks, a single
`.0` artifact, a full-width space) normalizes idempotently. -/
theorem claim_C3_witness :
    normalizeJoinKeyCol (normalizeJoinKeyCol
        [some " 7.0 ", none, some "a　 b"]) =
      normalizeJoinKeyCol [some " 7.0 ", none, some "a　 b"] := by
  apply claim_C3
  intro s hs
  simp only [List.mem_cons, List.not_mem_nil, or_false, Option.some_inj,
             reduceCtorEq, false_or] at hs
  rcases hs with rfl | rfl
  · exact ⟨by decide, by decide⟩
  · exact ⟨by decide, by decide⟩

/-- C3 counterexample: the column holding `"1.0.0"` normalizes to
`"1.0"` and a second pass shortens it to `"1"` — normalization is not
idempotent as claimed. -/
theorem claim_C3_counterexample :
    normalizeJoinKeyCol (normalizeJoinKeyCol [some "1.0.0"]) ≠
      normalizeJoinKeyCol [some "1.0.0"] := by decide

end MDIP
